import Mathlib

/-!
# crypto-stats: candle parsing, classification and descriptive statistics

A shallow embedding of `src/main.go`.  Go's `float64` is modelled exactly
(IEEE 754 binary64, round to nearest, ties to even); every finite value is an
integer multiple of `2^(-1074)`, so a finite float is stored as a sign and a
natural number of such units.
-/

namespace CryptoStats

/-! ## float64 -/

/-- Go's `float64`.  `fin neg mag` is the finite value `(-1)^neg * mag * 2^(-1074)`
(both zeros are present); NaN payloads are not distinguished. -/
inductive F64 where
  | nan : F64
  | inf (neg : Bool) : F64
  | fin (neg : Bool) (mag : Nat) : F64
  deriving DecidableEq, Repr

namespace F64

/-- Number of units of `2^(-1074)` in `1.0`. -/
def one_units : Nat := 2 ^ 1074

/-- First magnitude (in units) that no longer fits: `2^1024`. -/
def overflow_units : Nat := 2 ^ 2098

/-- Round the rational `n / d` (with `0 < d`) to the nearest integer, ties to even. -/
def rne (n d : Nat) : Nat :=
  let q := n / d
  let r := n % d
  if 2 * r < d then q
  else if d < 2 * r then q + 1
  else if q % 2 = 0 then q else q + 1

/-- Bit length by repeated halving, with explicit fuel. -/
def bitLenAux : Nat → Nat → Nat
  | 0, _ => 0
  | f + 1, n => if n = 0 then 0 else bitLenAux f (n / 2) + 1

/-- Number of binary digits of `n` (`0` for `0`). -/
def bitLen (n : Nat) : Nat := bitLenAux n n

/-- Number of low-order bits of an integer magnitude that do not fit in the
53-bit significand. -/
def drop_bits (q : Nat) : Nat := bitLen q - 53

/-- Round the magnitude `n / d` (in units of `2^(-1074)`) to the nearest
magnitude with a 53-bit significand, ties to even; the exponent is not yet
bounded above. -/
def roundMag (n d : Nat) : Nat :=
  let s := drop_bits (n / d)
  rne n (d * 2 ^ s) * 2 ^ s

/-- A magnitude with at most 53 significant bits (what a `float64` can hold). -/
def fitsSignificand (g : Nat) : Prop := ∃ k t : Nat, k < 2 ^ 53 ∧ g = k * 2 ^ t

/-- Round the signed magnitude `n / d` units to a float, overflowing to infinity. -/
def round (neg : Bool) (n d : Nat) : F64 :=
  let m := roundMag n d
  if overflow_units ≤ m then inf neg else fin neg m

/-- The float nearest to the integer `z` (Go's `float64(z)`, and integer constants). -/
def ofInt (z : Int) : F64 := round (decide (z < 0)) (z.natAbs * one_units) 1

/-- The float nearest to the fraction `p / q` (decimal constants such as `2.88`). -/
def ofFrac (p : Int) (q : Nat) : F64 := round (decide (p < 0)) (p.natAbs * one_units) q

/-- Signed number of units of a finite float, as an integer. -/
def units (neg : Bool) (mag : Nat) : Int := if neg then -(mag : Int) else (mag : Int)

/-- Go's `x + y`. -/
def add : F64 → F64 → F64
  | nan, _ => nan
  | _, nan => nan
  | inf a, inf b => if a = b then inf a else nan
  | inf a, fin _ _ => inf a
  | fin _ _, inf b => inf b
  | fin a m, fin b k =>
    let z := units a m + units b k
    if z = 0 then fin (a && b) 0
    else round (decide (z < 0)) z.natAbs 1

/-- Go's unary `-x`. -/
def neg : F64 → F64
  | nan => nan
  | inf a => inf (!a)
  | fin a m => fin (!a) m

/-- Go's `x - y`. -/
def sub (x y : F64) : F64 := add x (neg y)

/-- Go's `x * y`. -/
def mul : F64 → F64 → F64
  | nan, _ => nan
  | _, nan => nan
  | inf a, inf b => inf (xor a b)
  | inf a, fin b k => if k = 0 then nan else inf (xor a b)
  | fin a m, inf b => if m = 0 then nan else inf (xor a b)
  | fin a m, fin b k => round (xor a b) (m * k) one_units

/-- Go's `x / y`. -/
def div : F64 → F64 → F64
  | nan, _ => nan
  | _, nan => nan
  | inf _, inf _ => nan
  | inf a, fin b _ => inf (xor a b)
  | fin a _, inf b => fin (xor a b) 0
  | fin a m, fin b k =>
    if k = 0 then (if m = 0 then nan else inf (xor a b))
    else round (xor a b) (m * one_units) k

/-- Go's `math.Abs`. -/
def abs : F64 → F64
  | nan => nan
  | inf _ => inf false
  | fin _ m => fin false m

/-- Go's `x < y`. -/
def lt : F64 → F64 → Bool
  | nan, _ => false
  | _, nan => false
  | inf a, inf b => a && !b
  | inf a, fin _ _ => a
  | fin _ _, inf b => !b
  | fin a m, fin b k => decide (units a m < units b k)

/-- Go's `x > y`. -/
def gt (x y : F64) : Bool := lt y x

/-- Go's `x == y`. -/
def eq : F64 → F64 → Bool
  | nan, _ => false
  | _, nan => false
  | inf a, inf b => a == b
  | inf _, fin _ _ => false
  | fin _ _, inf _ => false
  | fin a m, fin b k => decide (units a m = units b k)

/-- The constant `0`. -/
def zero : F64 := fin false 0

/-- Integer square root, one bit at a time: `r` holds the bits above position `i`. -/
def isqrtAux : Nat → Nat → Nat → Nat
  | 0, _, r => r
  | i + 1, n, r =>
    let c := r + 2 ^ i
    if c * c ≤ n then isqrtAux i n c else isqrtAux i n r

/-- Largest `r` with `r * r ≤ n`. -/
def isqrt (n : Nat) : Nat := isqrtAux (bitLen n / 2 + 1) n 0

/-- Round `sqrt x` (for an integer `x`, in units of `2^(-1074)`) to the nearest
magnitude with a 53-bit significand, ties to even. -/
def roundSqrtMag (x : Nat) : Nat :=
  let s := drop_bits (isqrt x)
  let k := isqrt (x / 4 ^ s)
  -- compare sqrt x with the midpoint (k + 1/2) * 2^s, squared and scaled by 4
  let mid := (2 * k + 1) * (2 * k + 1) * 4 ^ s
  if 4 * x < mid then k * 2 ^ s
  else if mid < 4 * x then (k + 1) * 2 ^ s
  else if k % 2 = 0 then k * 2 ^ s else (k + 1) * 2 ^ s

/-- Go's `math.Sqrt`. -/
def sqrt : F64 → F64
  | nan => nan
  | inf a => if a then nan else inf false
  | fin a m =>
    if m = 0 then fin a 0
    else if a then nan
    else fin false (roundSqrtMag (m * one_units))

/-- Go's `int64(x)` for a float `x`: truncation toward zero.  For a value
outside the range of `int64` (and for NaN) the language leaves the result to
the implementation; the value produced on amd64 is used. -/
def toInt64 : F64 → Int
  | nan => -(2 ^ 63 : Int)
  | inf _ => -(2 ^ 63 : Int)
  | fin a m =>
    let k := m / one_units
    if a then (if k ≤ 2 ^ 63 then -(k : Int) else -(2 ^ 63 : Int))
    else (if k < 2 ^ 63 then (k : Int) else -(2 ^ 63 : Int))

/-- The value of a finite float times `10^d`, rounded to the nearest integer,
ties to even (the digits a fixed-point rendering with `d` decimals shows). -/
def scaledDigits (d : Nat) (m : Nat) : Nat := rne (m * 10 ^ d) one_units

/-- Two decimal digits of a number below 100. -/
def twoDigits (n : Nat) : String :=
  if n < 10 then "0" ++ Nat.repr n else Nat.repr n

/-- Go's `fmt.Sprintf("%.2f", x)`. -/
def format2f : F64 → String
  | nan => "NaN"
  | inf a => if a then "-Inf" else "+Inf"
  | fin a m =>
    let c := scaledDigits 2 m
    (if a then "-" else "") ++ Nat.repr (c / 100) ++ "." ++ twoDigits (c % 100)

/-- A finite float rounded to `d` decimal places, as a signed count of `10^(-d)`. -/
def roundDecimals (d : Nat) : F64 → Option Int
  | nan => none
  | inf _ => none
  | fin a m => some (units a (scaledDigits d m))

end F64

/-! ## Candle classification -/

/-- `type CandleType string`. -/
abbrev CandleType := String

def BEAR : CandleType := "BEAR"
def BULL : CandleType := "BULL"
def DOJI : CandleType := "DOJI"

/-- `func (candleType *CandleType) calculateCandleType(openPrice, closePrice float64) CandleType` -/
def calculateCandleType (openPrice closePrice : F64) : CandleType :=
  let result := F64.sub closePrice openPrice
  if F64.gt result F64.zero then BULL
  else if F64.lt result F64.zero then BEAR
  else if F64.eq result F64.zero then DOJI
  else DOJI

/-! ## Data model -/

/-- `type Candle struct`. -/
structure Candle where
  OpenTime : Int
  Open : F64
  High : F64
  Low : F64
  Close : F64
  Volume : Int
  CloseTime : Int
  deriving DecidableEq, Repr

/-- `type CandleStats struct`, with the embedded `Candle`. -/
structure CandleStats where
  toCandle : Candle
  candleType : CandleType
  returnPercentage : F64
  deriving DecidableEq, Repr

/-- `type Stats struct`. -/
structure Stats where
  Name : String
  Std : F64
  Mean : F64
  ValueAtRisk : F64
  deriving DecidableEq, Repr

/-- `type AnalysisReport struct`; the Go map `stats` is the list of its entries. -/
structure AnalysisReport where
  currencyPair : String
  candleStatsList : List CandleStats
  stats : List (String × Stats)
  deriving DecidableEq, Repr

def currencyPair : String := "SHIBUSDT"

/-! ## Classifier and return calculator -/

/-- `func calculateReturnPercentageValue(candle *Candle) float64` -/
def calculateReturnPercentageValue (candle : Candle) : F64 :=
  F64.div (F64.sub candle.Close candle.Open) candle.Open

/-- `func calculateCandleStats(candleList *[]Candle) []CandleStats`: the loop
appends one element per candle. -/
def calculateCandleStats (candleList : List Candle) : List CandleStats :=
  candleList.foldl
    (fun candleStatsList candle =>
      candleStatsList ++
        [{ toCandle := candle
           candleType := calculateCandleType candle.Open candle.Close
           returnPercentage := calculateReturnPercentageValue candle }])
    []

/-! ## Number parsing (`strconv`) -/

namespace strconv

/-- The two error kinds of `strconv` (`*NumError` with `Err` one of these). -/
inductive NumError where
  | ErrSyntax : NumError
  | ErrRange : NumError
  deriving DecidableEq, Repr

/-- The byte is one of `'0'`..`'9'`. -/
def isDigit (c : Char) : Bool := decide (48 ≤ c.toNat) && decide (c.toNat ≤ 57)

/-- Value of a decimal digit. -/
def digitVal (c : Char) : Nat := c.toNat - 48

/-- Largest `uint64`. -/
def maxUint64 : Nat := 2 ^ 64 - 1

/-- The digit loop of `strconv.ParseUint(s, 10, 64)`: a byte that is not a
decimal digit is a syntax error with value `0`; a value that does not fit is a
range error with the largest value. -/
def parseUintLoop : List Char → Nat → Nat × Option NumError
  | [], n => (n, none)
  | c :: cs, n =>
    if isDigit c then
      if maxUint64 / 10 + 1 ≤ n then (maxUint64, some NumError.ErrRange)
      else
        let n1 := n * 10 + digitVal c
        if maxUint64 < n1 then (maxUint64, some NumError.ErrRange)
        else parseUintLoop cs n1
    else (0, some NumError.ErrSyntax)

/-- Go's `strconv.ParseUint(s, 10, 64)`. -/
def ParseUint (s : List Char) : Nat × Option NumError :=
  if s = [] then (0, some NumError.ErrSyntax) else parseUintLoop s 0

/-- The part of `strconv.ParseInt` after the sign has been picked off. -/
def parseIntSigned (neg : Bool) (s : List Char) : Int × Option NumError :=
  match ParseUint s with
  | (_, some NumError.ErrSyntax) => (0, some NumError.ErrSyntax)
  | (un, _) =>
    if !neg && decide (2 ^ 63 ≤ un) then ((2 ^ 63 - 1 : Int), some NumError.ErrRange)
    else if neg && decide (2 ^ 63 < un) then (-(2 ^ 63 : Int), some NumError.ErrRange)
    else (if neg then -(un : Int) else (un : Int), none)

/-- Go's `strconv.ParseInt(s, 10, 64)`. -/
def ParseInt (s : String) : Int × Option NumError :=
  match s.toList with
  | [] => (0, some NumError.ErrSyntax)
  | c :: cs =>
    if c = '+' then parseIntSigned false cs
    else if c = '-' then parseIntSigned true cs
    else parseIntSigned false (c :: cs)

/-- The byte is one of `'a'`..`'f'` or `'A'`..`'F'`. -/
def isHexLetter (c : Char) : Bool :=
  decide (97 ≤ c.toLower.toNat) && decide (c.toLower.toNat ≤ 102)

/-- Value of a hexadecimal digit that is a letter. -/
def hexLetterVal (c : Char) : Nat := c.toLower.toNat - 97 + 10

/-- The number starts with the base prefix `0x` or `0X`, followed by at least one
more byte. -/
def hexPrefix : List Char → Bool
  | c0 :: c1 :: _ :: _ => decide (c0 = '0') && decide (c1.toLower = 'x')
  | _ => false

/-- The mantissa loop of `readFloat`: the digits read so far as a number, how many
of them follow the point, whether a point, a digit and an underscore were seen;
returns the unread rest.  Underscores are skipped here and checked afterwards. -/
def readMantissa (hex : Bool) :
    List Char → Nat → Nat → Bool → Bool → Bool → Nat × Nat × Bool × Bool × List Char
  | [], mant, frac, _, sawdigits, underscores => (mant, frac, sawdigits, underscores, [])
  | c :: cs, mant, frac, sawdot, sawdigits, underscores =>
    if c = '_' then readMantissa hex cs mant frac sawdot sawdigits true
    else if c = '.' then
      if sawdot then (mant, frac, sawdigits, underscores, c :: cs)
      else readMantissa hex cs mant frac true sawdigits underscores
    else if isDigit c then
      readMantissa hex cs (mant * (if hex then 16 else 10) + digitVal c)
        (if sawdot then frac + 1 else frac) sawdot true underscores
    else if hex && isHexLetter c then
      readMantissa hex cs (mant * 16 + hexLetterVal c)
        (if sawdot then frac + 1 else frac) sawdot true underscores
    else (mant, frac, sawdigits, underscores, c :: cs)

/-- The exponent digits of `readFloat`; the exponent stops growing at 10000. -/
def readExpDigits : List Char → Nat → Bool → Nat × Bool × List Char
  | [], e, underscores => (e, underscores, [])
  | c :: cs, e, underscores =>
    if c = '_' then readExpDigits cs e true
    else if isDigit c then
      readExpDigits cs (if e < 10000 then e * 10 + digitVal c else e) underscores
    else (e, underscores, c :: cs)

/-- The digits of an exponent, the first of which must be a digit. -/
def readExpNumber (esign : Int) (s : List Char) (underscores : Bool) :
    Option (Int × Bool × List Char) :=
  match s with
  | [] => none
  | c :: cs =>
    if isDigit c then
      let r := readExpDigits (c :: cs) 0 underscores
      some (esign * (r.1 : Int), r.2.1, r.2.2)
    else none

/-- The exponent part of `readFloat`: optional after a decimal mantissa (`e`),
required after a hexadecimal one (`p`). -/
def readExponent (hex : Bool) (s : List Char) (underscores : Bool) :
    Option (Int × Bool × List Char) :=
  match s with
  | [] => if hex then none else some (0, underscores, [])
  | c :: cs =>
    if c.toLower = (if hex then 'p' else 'e') then
      match cs with
      | [] => none
      | d :: ds =>
        if d = '+' then readExpNumber 1 ds underscores
        else if d = '-' then readExpNumber (-1) ds underscores
        else readExpNumber 1 (d :: ds) underscores
    else if hex then none
    else some (0, underscores, c :: cs)

/-- What `underscoreOK` saw last. -/
inductive Saw where
  | start : Saw
  | digit : Saw
  | underscore : Saw
  | other : Saw
  deriving DecidableEq, Repr

/-- The loop of `underscoreOK`: an underscore must follow a digit (or the base
prefix) and be followed by a digit. -/
def underscoreOKLoop (hex : Bool) : List Char → Saw → Bool
  | [], saw => decide (saw ≠ Saw.underscore)
  | c :: cs, saw =>
    if isDigit c || (hex && isHexLetter c) then underscoreOKLoop hex cs Saw.digit
    else if c = '_' then
      if saw = Saw.digit then underscoreOKLoop hex cs Saw.underscore else false
    else if saw = Saw.underscore then false
    else underscoreOKLoop hex cs Saw.other

/-- After the sign: the optional base prefix, then the number proper. -/
def underscoreOKUnsigned : List Char → Bool
  | c0 :: c1 :: rest =>
    if c0 = '0' ∧ (c1.toLower = 'b' ∨ c1.toLower = 'o' ∨ c1.toLower = 'x') then
      underscoreOKLoop (decide (c1.toLower = 'x')) rest Saw.digit
    else underscoreOKLoop false (c0 :: c1 :: rest) Saw.start
  | s => underscoreOKLoop false s Saw.start

/-- Go's `underscoreOK`: whether the underscores in the number are allowed. -/
def underscoreOK : List Char → Bool
  | [] => underscoreOKUnsigned []
  | c :: cs => if c = '-' ∨ c = '+' then underscoreOKUnsigned cs else underscoreOKUnsigned (c :: cs)

/-- The number `(-1)^neg * mant * 10^e10`, correctly rounded. -/
def decimalToFloat (neg : Bool) (mant : Nat) (e10 : Int) : F64 :=
  if 0 ≤ e10 then F64.round neg (mant * 10 ^ e10.toNat * F64.one_units) 1
  else F64.round neg (mant * F64.one_units) (10 ^ (-e10).toNat)

/-- The number `(-1)^neg * mant * 2^e2`, correctly rounded. -/
def hexToFloat (neg : Bool) (mant : Nat) (e2 : Int) : F64 :=
  if 0 ≤ e2 then F64.round neg (mant * 2 ^ e2.toNat * F64.one_units) 1
  else F64.round neg (mant * F64.one_units) (2 ^ (-e2).toNat)

/-- `readFloat` and the conversion after the sign: `whole` is the string with its
sign, `s` the part after it.  Base prefix, mantissa, exponent, nothing left
over, and the underscores in allowed places. -/
def parseNumber (neg : Bool) (whole s : List Char) : F64 × Option NumError :=
  let hex := hexPrefix s
  match readMantissa hex (if hex then s.drop 2 else s) 0 0 false false false with
  | (mant, frac, true, underscores, rest) =>
    match readExponent hex rest underscores with
    | some (e, underscores, []) =>
      if underscores && !underscoreOK whole then (F64.zero, some NumError.ErrSyntax)
      else
        match (if hex then hexToFloat neg mant (e - 4 * (frac : Int))
               else decimalToFloat neg mant (e - (frac : Int))) with
        | F64.inf a => (F64.inf a, some NumError.ErrRange)
        | f => (f, none)
    | _ => (F64.zero, some NumError.ErrSyntax)
  | _ => (F64.zero, some NumError.ErrSyntax)

/-- The special values accepted by `strconv.ParseFloat`, matched without regard
to case. -/
def special (s : List Char) : Option F64 :=
  let l := String.mk (s.map Char.toLower)
  if l = "nan" then some F64.nan
  else if l = "inf" ∨ l = "+inf" ∨ l = "infinity" ∨ l = "+infinity" then some (F64.inf false)
  else if l = "-inf" ∨ l = "-infinity" then some (F64.inf true)
  else none

/-- Go's `strconv.ParseFloat(s, 64)`: decimal and hexadecimal numbers as in Go's
floating-point literals (underscores may separate digits), and the special
values.  The result is the nearest float; a number that is too large gives an
infinity with `ErrRange`, a string that is not a number gives `0` with
`ErrSyntax`. -/
def ParseFloat (s : String) : F64 × Option NumError :=
  match special s.toList with
  | some f => (f, none)
  | none =>
    match s.toList with
    | [] => (F64.zero, some NumError.ErrSyntax)
    | c :: cs =>
      if c = '+' then parseNumber false (c :: cs) cs
      else if c = '-' then parseNumber true (c :: cs) cs
      else parseNumber false (c :: cs) (c :: cs)

end strconv

/-! ## Candle parser -/

/-- A value of type `interface{}` as `json.Unmarshal` produces it. -/
inductive JSONValue where
  | null : JSONValue
  | bool (b : Bool) : JSONValue
  | number (f : F64) : JSONValue
  | string (s : String) : JSONValue
  | array (l : List JSONValue) : JSONValue
  | object (l : List (String × JSONValue)) : JSONValue

/-- Run-time panics of the Go code. -/
inductive Panic where
  | indexOutOfRange (index length : Nat) : Panic
  | interfaceConversion (dynamicType wanted : String) : Panic
  | nilDereference : Panic
  deriving DecidableEq, Repr

/-- Name of the dynamic type of an `interface{}` value. -/
def JSONValue.typeName : JSONValue → String
  | .null => "nil"
  | .bool _ => "bool"
  | .number _ => "float64"
  | .string _ => "string"
  | .array _ => "[]interface \x7b\x7d"
  | .object _ => "map[string]interface \x7b\x7d"

deriving instance DecidableEq for Except

/-- The index expression `v[i]`. -/
def index (v : List JSONValue) (i : Nat) : Except Panic JSONValue :=
  match v.get? i with
  | some x => Except.ok x
  | none => Except.error (Panic.indexOutOfRange i v.length)

/-- The type assertion `x.(float64)`. -/
def assertFloat64 : JSONValue → Except Panic F64
  | .number f => Except.ok f
  | x => Except.error (Panic.interfaceConversion x.typeName "float64")

/-- The type assertion `x.(string)`. -/
def assertString : JSONValue → Except Panic String
  | .string s => Except.ok s
  | x => Except.error (Panic.interfaceConversion x.typeName "string")

/-- The body of the loop of `convertFromArray`: one row, statement by statement;
the error results of the `strconv` calls are discarded. -/
def convertRow (v : List JSONValue) : Except Panic Candle := do
  let t0 ← index v 0 >>= assertFloat64
  let s1 ← index v 1 >>= assertString
  let s2 ← index v 2 >>= assertString
  let s3 ← index v 3 >>= assertString
  let s4 ← index v 4 >>= assertString
  let s5 ← index v 5 >>= assertString
  let t6 ← index v 6 >>= assertFloat64
  pure
    { OpenTime := F64.toInt64 t0
      Open := (strconv.ParseFloat s1).1
      High := (strconv.ParseFloat s2).1
      Low := (strconv.ParseFloat s3).1
      Close := (strconv.ParseFloat s4).1
      Volume := (strconv.ParseInt s5).1
      CloseTime := F64.toInt64 t6 }

/-- `func (*Candle) convertFromArray(rawArray [][]interface{}) *[]Candle` -/
def convertFromArray (rawArray : List (List JSONValue)) : Except Panic (List Candle) :=
  rawArray.foldlM
    (fun candleList v => do
      let candle ← convertRow v
      pure (candleList ++ [candle]))
    []

/-! ## Statistics aggregator -/

/-- The error value of the statistics package. -/
inductive StatsError where
  | EmptyInput : StatsError
  deriving DecidableEq, Repr

namespace stats

/-- Modelled from the spec: the sum inside the "arithmetic mean" of the third-party
package `github.com/montanaflynn/stats`, whose source is not part of the
repository; the terms are added from left to right. -/
def Sum (input : List F64) : F64 := input.foldl F64.add F64.zero

/-- Modelled from the spec: `stats.Mean` of the third-party package
`github.com/montanaflynn/stats`, whose source is not part of the repository.
The spec describes it as the "arithmetic mean of the same sequence", and the
reduction of an empty sequence as "an ignorable error".  The value the package
returns together with that error is NaN (it is not the zero the spec speaks of). -/
def Mean (input : List F64) : F64 × Option StatsError :=
  if input.length = 0 then (F64.nan, some StatsError.EmptyInput)
  else (F64.div (Sum input) (F64.ofInt input.length), none)

/-- Modelled from the spec: the population variance behind
`stats.StandardDeviationPopulation`: the mean of the squared deviations from
the mean, "denominator = N, not N−1". -/
def PopulationVariance (input : List F64) : F64 :=
  let m := (Mean input).1
  F64.div
    (input.foldl (fun variance n => F64.add variance (F64.mul (F64.sub n m) (F64.sub n m)))
      F64.zero)
    (F64.ofInt input.length)

/-- Modelled from the spec: `stats.StandardDeviationPopulation` of the third-party
package `github.com/montanaflynn/stats`, whose source is not part of the
repository: "population standard deviation ... (denominator = N, not N−1)",
with the empty sequence reported as "an ignorable error".  The value the package
returns together with that error is NaN (it is not the zero the spec speaks of). -/
def StandardDeviationPopulation (input : List F64) : F64 × Option StatsError :=
  if input.length = 0 then (F64.nan, some StatsError.EmptyInput)
  else (F64.sqrt (PopulationVariance input), none)

end stats

/-- `func calculateReport(candleStatsList []CandleStats) AnalysisReport`; both
error results of the statistics package are discarded, as in the source. -/
def calculateReport (candleStatsList : List CandleStats) : AnalysisReport :=
  let values : List F64 :=
    candleStatsList.foldl (fun values v => values ++ [F64.abs v.returnPercentage]) []
  let std := (stats.StandardDeviationPopulation values).1
  let mean := (stats.Mean values).1
  let returnPercentageStats : Stats :=
    { Name := "Return Percentage"
      Std := std
      Mean := mean
      ValueAtRisk := F64.mul (F64.ofFrac 288 100) std }
  { currencyPair := currencyPair
    candleStatsList := candleStatsList
    stats := [("return_percentage", returnPercentageStats)] }

/-! ## Console table -/

/-- The `table.Table` value handed to the table library: headers and rows. -/
structure Table where
  Headers : List String
  Rows : List (List String)
  deriving DecidableEq, Repr

/-- One row of the table, as built in the loop body of `buildTable`. -/
def tableRow (v : Stats) : List String :=
  [v.Name,
   F64.format2f (F64.mul v.Std (F64.ofInt 100)),
   F64.format2f (F64.mul v.Mean (F64.ofInt 100)),
   F64.format2f (F64.mul v.ValueAtRisk (F64.ofInt 100))]

/-- The characters after an optional minus sign. -/
def stripMinus : List Char → List Char
  | '-' :: r => r
  | r => r

/-- Read from the right: two digits, a point, and at least one digit before it. -/
def fixed2Reversed : List Char → Bool
  | d2 :: d1 :: p :: ip =>
    strconv.isDigit d2 && strconv.isDigit d1 && decide (p = '.') && !ip.isEmpty &&
      ip.all strconv.isDigit
  | _ => false

/-- The string is in fixed notation with two decimal places: an optional minus
sign, at least one digit, a point and exactly two digits. -/
def isFixed2 (s : String) : Bool := fixed2Reversed (stripMinus s.toList).reverse

/-- `func buildTable(stats map[string]Stats) *table.Table`.  The argument lists
the entries of the map in the order in which the `range` loop visits them
(Go leaves that order unspecified). -/
def buildTable (visited : List (String × Stats)) : Table :=
  { Headers := ["KPI Name", "Standard Deviation", "Mean", "Value At Risk"]
    Rows := visited.foldl (fun rows kv => rows ++ [tableRow kv.2]) [] }

/-! ## Raw rows as the API documents them -/

/-- The decimal number written by a list of digits, continuing from `n`. -/
def digitsValue (ds : List Char) (n : Nat) : Nat :=
  ds.foldl (fun n c => n * 10 + strconv.digitVal c) n

/-- Text of a decimal number: an optional minus sign, the integer digits and,
when there are fraction digits, a point followed by them. -/
def decimalText (neg : Bool) (intDigits fracDigits : List Char) : String :=
  String.mk ((if neg then ['-'] else []) ++ intDigits ++
    (if fracDigits = [] then [] else '.' :: fracDigits))

/-- Sign and number of units of the integer `z`: the float with the value `z`,
when a `float64` holds `z`. -/
def F64.exactInt (z : Int) : F64 := F64.fin (decide (z < 0)) (z.natAbs * F64.one_units)

/-- The text of a decimal number, in its parts. -/
structure DecimalSpec where
  neg : Bool
  intDigits : List Char
  fracDigits : List Char
  deriving DecidableEq, Repr

/-- The string of a decimal number. -/
def DecimalSpec.text (d : DecimalSpec) : String :=
  decimalText d.neg d.intDigits d.fracDigits

/-- At least one integer digit, and nothing but digits. -/
def DecimalSpec.wellFormed (d : DecimalSpec) : Bool :=
  !d.intDigits.isEmpty && d.intDigits.all strconv.isDigit && d.fracDigits.all strconv.isDigit

/-- The float nearest to the decimal number: its digits over a power of ten. -/
def DecimalSpec.value (d : DecimalSpec) : F64 :=
  F64.round d.neg (digitsValue (d.intDigits ++ d.fracDigits) 0 * F64.one_units)
    (10 ^ d.fracDigits.length)

/-- The integer written by the integer digits and the sign. -/
def DecimalSpec.intValue (d : DecimalSpec) : Int :=
  if d.neg then -(digitsValue d.intDigits 0 : Int) else (digitsValue d.intDigits 0 : Int)

/-- A decimal number without fraction digits whose value fits `int64`. -/
def DecimalSpec.isInt64 (d : DecimalSpec) : Bool :=
  d.wellFormed && d.fracDigits.isEmpty &&
    (if d.neg then decide (digitsValue d.intDigits 0 ≤ 2 ^ 63)
     else decide (digitsValue d.intDigits 0 < 2 ^ 63))

/-- The integer fits `int64`. -/
def isInt64 (z : Int) : Bool := decide (-(2 ^ 63 : Int) ≤ z) && decide (z < 2 ^ 63)

/-- An integer timestamp as a decoded JSON number can carry it: a `float64` holds
the integer exactly (the nearest float is the integer itself), and it fits `int64`. -/
def isTimestamp (z : Int) : Bool :=
  isInt64 z && decide (F64.ofInt z = F64.exactInt z)

/-- One kline as the API documents it: two integer timestamps, five decimal
strings, and further fields. -/
structure RowSpec where
  OpenTime : Int
  Open : DecimalSpec
  High : DecimalSpec
  Low : DecimalSpec
  Close : DecimalSpec
  Volume : DecimalSpec
  CloseTime : Int
  trailing : List JSONValue

/-- The decoded JSON row of a kline: `json.Unmarshal` turns a JSON number into the
nearest `float64`. -/
def RowSpec.raw (r : RowSpec) : List JSONValue :=
  [JSONValue.number (F64.ofInt r.OpenTime), JSONValue.string r.Open.text,
   JSONValue.string r.High.text, JSONValue.string r.Low.text, JSONValue.string r.Close.text,
   JSONValue.string r.Volume.text, JSONValue.number (F64.ofInt r.CloseTime)] ++ r.trailing

/-- Integer timestamps that the decoded numbers hold exactly and that fit `int64`,
and five well-formed decimal strings. -/
def RowSpec.valid (r : RowSpec) : Bool :=
  isTimestamp r.OpenTime && isTimestamp r.CloseTime && r.Open.wellFormed && r.High.wellFormed &&
    r.Low.wellFormed && r.Close.wellFormed && r.Volume.wellFormed

/-- A valid row whose volume is written as an integer that fits `int64`. -/
def RowSpec.validIntVolume (r : RowSpec) : Bool := r.valid && r.Volume.isInt64

/-- The candle a kline stands for, with the volume read as an integer. -/
def RowSpec.candle (r : RowSpec) : Candle :=
  { OpenTime := r.OpenTime
    Open := r.Open.value
    High := r.High.value
    Low := r.Low.value
    Close := r.Close.value
    Volume := r.Volume.intValue
    CloseTime := r.CloseTime }

/-- The first seven fields have the JSON types of the documented layout. -/
def wellTyped : List JSONValue → Bool
  | .number _ :: .string _ :: .string _ :: .string _ :: .string _ :: .string _ ::
      .number _ :: _ => true
  | _ => false

/-- The candle the loop body builds from a row with the documented types. -/
def typedCandle : List JSONValue → Option Candle
  | .number t0 :: .string s1 :: .string s2 :: .string s3 :: .string s4 :: .string s5 ::
      .number t6 :: _ =>
    some
      { OpenTime := F64.toInt64 t0
        Open := (strconv.ParseFloat s1).1
        High := (strconv.ParseFloat s2).1
        Low := (strconv.ParseFloat s3).1
        Close := (strconv.ParseFloat s4).1
        Volume := (strconv.ParseInt s5).1
        CloseTime := F64.toInt64 t6 }
  | _ => none

/-- A kline with an integer volume. -/
def sampleKline : RowSpec :=
  { OpenTime := 1700000000000
    Open := ⟨false, ['0'], ['2', '5']⟩
    High := ⟨false, ['1'], ['5']⟩
    Low := ⟨false, ['0'], ['1', '2', '5']⟩
    Close := ⟨false, ['1'], []⟩
    Volume := ⟨false, ['4', '2'], []⟩
    CloseTime := 1700086399999
    trailing := [JSONValue.string "0", JSONValue.number (F64.ofInt 12)] }

/-- The same kline with the volume "1.5". -/
def fractionalKline : RowSpec :=
  { sampleKline with Volume := ⟨false, ['1'], ['5']⟩ }

/-- A row with the documented types whose strings are partly not numbers. -/
def lenientRow : List JSONValue :=
  [JSONValue.number (F64.ofInt 1700000000000), JSONValue.string "abc",
   JSONValue.string "1.5", JSONValue.string "", JSONValue.string "1,5",
   JSONValue.string "12.5", JSONValue.number (F64.ofInt 1700086399999)]

/-- A row of seven fields whose field 0 is a string instead of a number. -/
def illTypedRow : List JSONValue :=
  [JSONValue.string "1700000000000", JSONValue.string "1", JSONValue.string "1",
   JSONValue.string "1", JSONValue.string "1", JSONValue.string "1",
   JSONValue.number (F64.ofInt 1700086399999)]

/-! ## The run -/

/-- What the outside world hands to one run of `main`. -/
structure Env where
  /-- `http.NewRequest` returns an error (and a nil request) -/
  newRequestFails : Bool
  /-- `client.Do` returns an error (and a nil response) -/
  doFails : Bool
  /-- the bytes `ioutil.ReadAll` returns -/
  body : String
  /-- `json.Unmarshal` returns an error -/
  unmarshalFails : Bool
  /-- the value `json.Unmarshal` leaves in `candlesRaw` -/
  candlesRaw : List (List JSONValue)
  /-- `ioutil.WriteFile` returns an error -/
  writeFileFails : Bool

/-- Observable actions of a run, in order. -/
inductive Event where
  | printBody (body : String) : Event
  | printCandles (candleList : List Candle) : Event
  | printStats (stats : List (String × Stats)) : Event
  | printYaml (stats : List (String × Stats)) : Event
  /-- `ioutil.WriteFile(name, data, 0644)` with `data` the YAML document of `stats` -/
  | writeFile (name : String) (stats : List (String × Stats)) : Event
  | writeTable (t : Table) : Event
  deriving DecidableEq, Repr

/-- How a run ends. -/
inductive Exit where
  | normal : Exit
  | fatal : Exit
  | panic (p : Panic) : Exit
  deriving DecidableEq, Repr

/-- `func main()`: the actions of a run and how it ends.  The results of
`client.Do`, `ioutil.ReadAll` and `json.Unmarshal` are used without looking at
their errors, as in the source. -/
def main (env : Env) : List Event × Exit :=
  if env.newRequestFails then ([], Exit.panic Panic.nilDereference)
  else if env.doFails then ([], Exit.panic Panic.nilDereference)
  else
    let e1 := [Event.printBody env.body]
    match convertFromArray env.candlesRaw with
    | Except.error p => (e1, Exit.panic p)
    | Except.ok candleList =>
      let candleStatsList := calculateCandleStats candleList
      let report := calculateReport candleStatsList
      let e2 := e1 ++ [Event.printCandles candleList, Event.printStats report.stats,
        Event.printYaml report.stats, Event.writeFile "report.yaml" report.stats]
      if env.writeFileFails then (e2, Exit.fatal)
      else (e2 ++ [Event.writeTable (buildTable report.stats)], Exit.normal)

/-- A candle whose open price is zero, as a field that failed to parse leaves it. -/
def zeroOpenCandle : Candle :=
  { OpenTime := 1700000000000
    Open := F64.zero
    High := F64.ofInt 2
    Low := F64.zero
    Close := F64.ofInt 1
    Volume := 0
    CloseTime := 1700086399999 }

/-- Three per-candle records with the returns 0.1, -0.1 and 0. -/
def sampleStatsList : List CandleStats :=
  [⟨⟨0, F64.ofInt 100, F64.zero, F64.zero, F64.ofInt 110, 0, 0⟩, BULL, F64.ofFrac 1 10⟩,
   ⟨⟨0, F64.ofInt 100, F64.zero, F64.zero, F64.ofInt 90, 0, 0⟩, BEAR, F64.ofFrac (-1) 10⟩,
   ⟨⟨0, F64.ofInt 100, F64.zero, F64.zero, F64.ofInt 100, 0, 0⟩, DOJI, F64.zero⟩]

/-- A run in which the service answers with a body that is not JSON:
`json.Unmarshal` returns an error and leaves `candlesRaw` nil. -/
def decodeErrorEnv : Env :=
  { newRequestFails := false
    doFails := false
    body := "Service Unavailable"
    unmarshalFails := true
    candlesRaw := []
    writeFileFails := false }

/-! ## Facts about rounding -/

namespace F64

theorem bitLenAux_zero (f : Nat) : bitLenAux f 0 = 0 := by
  cases f <;> simp [bitLenAux]

theorem bitLenAux_spec (f : Nat) : ∀ n, n ≤ f →
    n < 2 ^ bitLenAux f n ∧ (n ≠ 0 → 2 ^ (bitLenAux f n - 1) ≤ n) := by
  induction f with
  | zero =>
    intro n hn
    have h0 : n = 0 := by omega
    subst h0
    simp [bitLenAux]
  | succ f ih =>
    intro n hn
    by_cases h0 : n = 0
    · subst h0
      simp [bitLenAux]
    · have hle : n / 2 ≤ f := by omega
      obtain ⟨hlt, hge⟩ := ih (n / 2) hle
      have hstep : bitLenAux (f + 1) n = bitLenAux f (n / 2) + 1 := by
        simp [bitLenAux, h0]
      rw [hstep]
      refine ⟨?_, fun _ => ?_⟩
      · rw [pow_succ]
        omega
      · simp only [Nat.add_sub_cancel]
        by_cases h1 : n / 2 = 0
        · rw [h1, bitLenAux_zero]
          simp
          omega
        · have h2 := hge h1
          have h3 : 2 ^ bitLenAux f (n / 2) = 2 ^ (bitLenAux f (n / 2) - 1) * 2 := by
            rw [← pow_succ]
            congr 1
            have : bitLenAux f (n / 2) ≠ 0 := by
              intro hz
              rw [hz] at hlt
              simp at hlt
              exact h1 hlt
            omega
          omega

theorem lt_two_pow_bitLen (n : Nat) : n < 2 ^ bitLen n :=
  (bitLenAux_spec n n le_rfl).1

theorem two_pow_bitLen_le (n : Nat) (h : n ≠ 0) : 2 ^ (bitLen n - 1) ≤ n :=
  (bitLenAux_spec n n le_rfl).2 h

theorem div_le_rne (n d : Nat) : n / d ≤ rne n d := by
  unfold rne
  simp only
  split_ifs <;> omega

theorem rne_le_succ (n d : Nat) : rne n d ≤ n / d + 1 := by
  unfold rne
  simp only
  split_ifs <;> omega

/-- A magnitude of at least one unit never rounds to zero (gradual underflow). -/
theorem roundMag_pos (n d : Nat) (hd : 0 < d) (h : d ≤ n) : 0 < roundMag n d := by
  unfold roundMag drop_bits
  simp only
  have hq : n / d ≠ 0 := by
    have := Nat.div_pos h hd
    omega
  have hlo := two_pow_bitLen_le (n / d) hq
  have hs : 2 ^ (bitLen (n / d) - 53) ≤ n / d :=
    le_trans (Nat.pow_le_pow_right (by norm_num) (by omega)) hlo
  have h1 : 0 < n / (d * 2 ^ (bitLen (n / d) - 53)) := by
    rw [← Nat.div_div_eq_div_mul]
    exact Nat.div_pos hs (by positivity)
  have h2 := div_le_rne n (d * 2 ^ (bitLen (n / d) - 53))
  have h3 : 0 < 2 ^ (bitLen (n / d) - 53) := by positivity
  exact Nat.mul_pos (by omega) h3

theorem roundMag_zero (d : Nat) : roundMag 0 d = 0 := by
  simp [roundMag, rne]

/-- Rounding to the nearest integer is off by at most one half. -/
theorem rne_error (n d : Nat) (hd : 0 < d) :
    2 * (n - rne n d * d) ≤ d ∧ 2 * (rne n d * d - n) ≤ d := by
  have h1 := Nat.div_add_mod n d
  have h2 := Nat.mod_lt n hd
  have h3 : (n / d + 1) * d = n / d * d + d := by ring
  have h4 : d * (n / d) = n / d * d := by ring
  unfold rne
  simp only
  split_ifs
  · constructor <;> omega
  · rw [h3]
    constructor <;> omega
  · constructor <;> omega
  · rw [h3]
    constructor <;> omega

theorem isqrtAux_spec (i n r : Nat) (h1 : r * r ≤ n) (h2 : n < (r + 2 ^ i) * (r + 2 ^ i)) :
    isqrtAux i n r * isqrtAux i n r ≤ n ∧
      n < (isqrtAux i n r + 1) * (isqrtAux i n r + 1) := by
  induction i generalizing r with
  | zero =>
    simp only [isqrtAux]
    exact ⟨h1, by simpa using h2⟩
  | succ i ih =>
    rw [isqrtAux]
    have e : r + 2 ^ (i + 1) = r + 2 ^ i + 2 ^ i := by
      rw [pow_succ]
      omega
    split_ifs with hc
    · exact ih _ hc (by rw [← e]; exact h2)
    · exact ih _ h1 (by omega)

/-- `isqrt n` is the integer square root of `n`. -/
theorem isqrt_spec (n : Nat) : isqrt n * isqrt n ≤ n ∧ n < (isqrt n + 1) * (isqrt n + 1) := by
  unfold isqrt
  apply isqrtAux_spec
  · simp
  · have h := lt_two_pow_bitLen n
    have h2 : 2 ^ bitLen n ≤ 2 ^ (bitLen n / 2 + 1) * 2 ^ (bitLen n / 2 + 1) := by
      rw [← pow_add]
      exact Nat.pow_le_pow_right (by norm_num) (by omega)
    simp only [Nat.zero_add]
    omega

/-- On a tie the rounding goes to the even neighbour. -/
theorem rne_tie_even (n d : Nat) (h : 2 * (n % d) = d) : rne n d % 2 = 0 := by
  unfold rne
  simp only
  split_ifs <;> omega

/-- No multiple of `d` is closer to `n` than `rne n d * d`. -/
theorem rne_nearest (n d : Nat) (hd : 0 < d) (j : Nat) :
    (rne n d * d - n) + (n - rne n d * d) ≤ (j * d - n) + (n - j * d) := by
  obtain ⟨h1, h2⟩ := rne_error n d hd
  rcases Nat.lt_trichotomy j (rne n d) with hlt | heq | hgt
  · have : (j + 1) * d ≤ rne n d * d := Nat.mul_le_mul_right d hlt
    have e : (j + 1) * d = j * d + d := by ring
    omega
  · rw [heq]
  · have : (rne n d + 1) * d ≤ j * d := Nat.mul_le_mul_right d hgt
    have e : (rne n d + 1) * d = rne n d * d + d := by ring
    omega

theorem bitLen_zero : bitLen 0 = 0 := by
  unfold bitLen
  exact bitLenAux_zero 0

/-- The quotient, cut down to the grid of its binade, has at most 53 bits. -/
theorem div_grid_lt (q : Nat) : q / 2 ^ (bitLen q - 53) < 2 ^ 53 := by
  have h := lt_two_pow_bitLen q
  rw [Nat.div_lt_iff_lt_mul (by positivity), ← pow_add]
  exact lt_of_lt_of_le h (Nat.pow_le_pow_right (by norm_num) (by omega))

/-- The rounded magnitude has at most 53 significant bits. -/
theorem roundMag_fits (n d : Nat) : fitsSignificand (roundMag n d) := by
  unfold roundMag drop_bits
  simp only
  have h1 := rne_le_succ n (d * 2 ^ (bitLen (n / d) - 53))
  have h2 := div_grid_lt (n / d)
  rw [← Nat.div_div_eq_div_mul] at h1
  by_cases h : rne n (d * 2 ^ (bitLen (n / d) - 53)) < 2 ^ 53
  · exact ⟨_, _, h, rfl⟩
  · have e : rne n (d * 2 ^ (bitLen (n / d) - 53)) = 2 ^ 53 := by omega
    refine ⟨2 ^ 52, bitLen (n / d) - 53 + 1, by norm_num, ?_⟩
    rw [e, pow_succ]
    ring

/-- Correct rounding: no magnitude with at most 53 significant bits is closer to
`n / d` than `roundMag n d`. -/
theorem roundMag_nearest (n d g : Nat) (hd : 0 < d) (hg : fitsSignificand g) :
    (roundMag n d * d - n) + (n - roundMag n d * d) ≤ (g * d - n) + (n - g * d) := by
  obtain ⟨k, t, hk, rfl⟩ := hg
  have hgrid : ∀ j : Nat,
      (roundMag n d * d - n) + (n - roundMag n d * d) ≤
        (j * (d * 2 ^ (bitLen (n / d) - 53)) - n) + (n - j * (d * 2 ^ (bitLen (n / d) - 53))) := by
    intro j
    have h := rne_nearest n (d * 2 ^ (bitLen (n / d) - 53)) (by positivity) j
    have e : roundMag n d * d =
        rne n (d * 2 ^ (bitLen (n / d) - 53)) * (d * 2 ^ (bitLen (n / d) - 53)) := by
      unfold roundMag drop_bits
      ring
    rw [e]
    exact h
  by_cases hs : bitLen (n / d) ≤ 53
  · have h := hgrid (k * 2 ^ t)
    have e : bitLen (n / d) - 53 = 0 := by omega
    rw [e, pow_zero, Nat.mul_one] at h
    exact h
  · have hq0 : n / d ≠ 0 := by
      intro h0
      rw [h0, bitLen_zero] at hs
      omega
    have hlo := two_pow_bitLen_le (n / d) hq0
    have hqd : n / d * d ≤ n := Nat.div_mul_le_self n d
    have hL : bitLen (n / d) - 1 = 52 + (bitLen (n / d) - 53) := by omega
    rw [hL] at hlo
    by_cases hbig : 2 ^ (52 + (bitLen (n / d) - 53)) ≤ k * 2 ^ t
    · have hts : bitLen (n / d) - 53 ≤ t := by
        by_contra hlt
        have h1 : 2 ^ t ≤ 2 ^ (bitLen (n / d) - 53 - 1) :=
          Nat.pow_le_pow_right (by norm_num) (by omega)
        have h2 : k * 2 ^ t < 2 ^ 53 * 2 ^ (bitLen (n / d) - 53 - 1) :=
          lt_of_le_of_lt (Nat.mul_le_mul_left k h1)
            (Nat.mul_lt_mul_of_pos_right hk (by positivity))
        rw [← pow_add] at h2
        have h3 : 53 + (bitLen (n / d) - 53 - 1) = 52 + (bitLen (n / d) - 53) := by omega
        rw [h3] at h2
        omega
      have h := hgrid (k * 2 ^ (t - (bitLen (n / d) - 53)))
      have e : k * 2 ^ (t - (bitLen (n / d) - 53)) * (d * 2 ^ (bitLen (n / d) - 53)) =
          k * 2 ^ t * d := by
        have : 2 ^ t = 2 ^ (t - (bitLen (n / d) - 53)) * 2 ^ (bitLen (n / d) - 53) := by
          rw [← pow_add]
          congr 1
          omega
        rw [this]
        ring
      rw [e] at h
      exact h
    · have h := hgrid (2 ^ 52)
      have e : 2 ^ 52 * (d * 2 ^ (bitLen (n / d) - 53)) =
          2 ^ (52 + (bitLen (n / d) - 53)) * d := by
        rw [pow_add]
        ring
      rw [e] at h
      have h1 : 2 ^ (52 + (bitLen (n / d) - 53)) * d ≤ n / d * d := Nat.mul_le_mul_right d hlo
      have h2 : k * 2 ^ t * d ≤ 2 ^ (52 + (bitLen (n / d) - 53)) * d :=
        Nat.mul_le_mul_right d (by omega)
      omega

/-- A finite result of rounding is a representable magnitude below the overflow
threshold, with the sign that was asked for. -/
theorem round_fin (neg a : Bool) (n d m : Nat) (h : round neg n d = fin a m) :
    a = neg ∧ m = roundMag n d ∧ fitsSignificand m ∧ m < overflow_units := by
  unfold round at h
  simp only at h
  split_ifs at h with ho
  cases h
  exact ⟨rfl, rfl, roundMag_fits n d, by omega⟩

theorem four_pow_eq (s : Nat) : 4 ^ s = 2 ^ s * 2 ^ s := by
  rw [← mul_pow]
  norm_num

theorem sq_pred_le (k : Nat) : (2 * k - 1) * (2 * k - 1) ≤ 4 * (k * k) := by
  cases k with
  | zero => simp
  | succ k =>
    have e : 2 * (k + 1) - 1 = 2 * k + 1 := by omega
    rw [e]
    nlinarith

/-- The grid quotient of the square root has at most 53 bits. -/
theorem isqrt_grid_lt (x : Nat) :
    isqrt (x / 4 ^ drop_bits (isqrt x)) < 2 ^ 53 := by
  obtain ⟨hk1, _⟩ := isqrt_spec (x / 4 ^ drop_bits (isqrt x))
  obtain ⟨_, hr2⟩ := isqrt_spec x
  have hx1 : x / 4 ^ drop_bits (isqrt x) * 4 ^ drop_bits (isqrt x) ≤ x :=
    Nat.div_mul_le_self _ _
  have hG : 0 < 2 ^ drop_bits (isqrt x) := by positivity
  -- (k * G)^2 ≤ x < (isqrt x + 1)^2
  have h1 : (isqrt (x / 4 ^ drop_bits (isqrt x)) * 2 ^ drop_bits (isqrt x)) *
      (isqrt (x / 4 ^ drop_bits (isqrt x)) * 2 ^ drop_bits (isqrt x)) ≤ x := by
    have := Nat.mul_le_mul_right (4 ^ drop_bits (isqrt x)) hk1
    rw [four_pow_eq] at this hx1
    calc _ = isqrt (x / 4 ^ drop_bits (isqrt x)) * isqrt (x / 4 ^ drop_bits (isqrt x)) *
          (2 ^ drop_bits (isqrt x) * 2 ^ drop_bits (isqrt x)) := by ring
      _ ≤ _ := by
        rw [four_pow_eq] at *
        omega
  have h2 : isqrt (x / 4 ^ drop_bits (isqrt x)) * 2 ^ drop_bits (isqrt x) < isqrt x + 1 := by
    by_contra hge
    have hge2 : isqrt x + 1 ≤
        isqrt (x / 4 ^ drop_bits (isqrt x)) * 2 ^ drop_bits (isqrt x) := by omega
    have := Nat.mul_le_mul hge2 hge2
    omega
  have h3 := lt_two_pow_bitLen (isqrt x)
  have h4 : isqrt (x / 4 ^ drop_bits (isqrt x)) * 2 ^ drop_bits (isqrt x) <
      2 ^ 53 * 2 ^ drop_bits (isqrt x) := by
    rw [← pow_add]
    have : 2 ^ bitLen (isqrt x) ≤ 2 ^ (53 + drop_bits (isqrt x)) :=
      Nat.pow_le_pow_right (by norm_num) (by unfold drop_bits; omega)
    omega
  exact Nat.lt_of_mul_lt_mul_right h4

/-- The square root is rounded correctly: the result is `k * 2^s` with `k ≤ 2^53`,
and `sqrt x` lies within half a grid step `2^s` of it. -/
theorem roundSqrtMag_error (x : Nat) :
    ∃ k s : Nat, roundSqrtMag x = k * 2 ^ s ∧ k ≤ 2 ^ 53 ∧
      (2 * k - 1) * (2 * k - 1) * 4 ^ s ≤ 4 * x ∧
      4 * x ≤ (2 * k + 1) * (2 * k + 1) * 4 ^ s := by
  obtain ⟨hk1, hk2⟩ := isqrt_spec (x / 4 ^ drop_bits (isqrt x))
  have hlt := isqrt_grid_lt x
  have h4 : 0 < 4 ^ drop_bits (isqrt x) := by positivity
  have hx1 : x / 4 ^ drop_bits (isqrt x) * 4 ^ drop_bits (isqrt x) ≤ x :=
    Nat.div_mul_le_self _ _
  have hx2 : x < (x / 4 ^ drop_bits (isqrt x) + 1) * 4 ^ drop_bits (isqrt x) :=
    Nat.lt_mul_of_div_lt (Nat.lt_succ_self _) h4
  have hlow : isqrt (x / 4 ^ drop_bits (isqrt x)) * isqrt (x / 4 ^ drop_bits (isqrt x)) *
      4 ^ drop_bits (isqrt x) ≤ x :=
    le_trans (Nat.mul_le_mul_right _ hk1) hx1
  have hhigh : x < (isqrt (x / 4 ^ drop_bits (isqrt x)) + 1) *
      (isqrt (x / 4 ^ drop_bits (isqrt x)) + 1) * 4 ^ drop_bits (isqrt x) :=
    lt_of_lt_of_le hx2 (Nat.mul_le_mul_right _ hk2)
  have hpred := Nat.mul_le_mul_right (4 ^ drop_bits (isqrt x))
    (sq_pred_le (isqrt (x / 4 ^ drop_bits (isqrt x))))
  have hsucc : 4 * ((isqrt (x / 4 ^ drop_bits (isqrt x)) + 1) *
      (isqrt (x / 4 ^ drop_bits (isqrt x)) + 1) * 4 ^ drop_bits (isqrt x)) ≤
      (2 * (isqrt (x / 4 ^ drop_bits (isqrt x)) + 1) + 1) *
        (2 * (isqrt (x / 4 ^ drop_bits (isqrt x)) + 1) + 1) * 4 ^ drop_bits (isqrt x) := by
    have : 4 * ((isqrt (x / 4 ^ drop_bits (isqrt x)) + 1) *
        (isqrt (x / 4 ^ drop_bits (isqrt x)) + 1)) ≤
        (2 * (isqrt (x / 4 ^ drop_bits (isqrt x)) + 1) + 1) *
          (2 * (isqrt (x / 4 ^ drop_bits (isqrt x)) + 1) + 1) := by nlinarith
    calc _ = 4 * ((isqrt (x / 4 ^ drop_bits (isqrt x)) + 1) *
          (isqrt (x / 4 ^ drop_bits (isqrt x)) + 1)) * 4 ^ drop_bits (isqrt x) := by ring
      _ ≤ _ := Nat.mul_le_mul_right _ this
  have e1 : 2 * (isqrt (x / 4 ^ drop_bits (isqrt x)) + 1) - 1 =
      2 * isqrt (x / 4 ^ drop_bits (isqrt x)) + 1 := by omega
  have hass : 4 * (isqrt (x / 4 ^ drop_bits (isqrt x)) *
      isqrt (x / 4 ^ drop_bits (isqrt x))) * 4 ^ drop_bits (isqrt x) =
      4 * (isqrt (x / 4 ^ drop_bits (isqrt x)) * isqrt (x / 4 ^ drop_bits (isqrt x)) *
        4 ^ drop_bits (isqrt x)) := by ring
  unfold roundSqrtMag
  simp only
  split_ifs with c1 c2 c3
  · exact ⟨_, _, rfl, by omega, by omega, by omega⟩
  · refine ⟨_, _, rfl, by omega, ?_, by omega⟩
    rw [e1]
    omega
  · exact ⟨_, _, rfl, by omega, by omega, by omega⟩
  · refine ⟨_, _, rfl, by omega, ?_, by omega⟩
    rw [e1]
    omega

/-- The model agrees with the IEEE 754 bit patterns of well-known values:
`0.1 = 0x3FB999999999999A`, `2.88 = 0x40070A3D70A3D70A`,
`0.1 + 0.2 = 0x3FD3333333333334`, `1 / 3 = 0x3FD5555555555555`,
`sqrt 2 = 0x3FF6A09E667F3BCD`. -/
theorem known_values :
    ofFrac 1 10 = fin false (0x1999999999999A * 2 ^ 1018) ∧
    ofFrac 288 100 = fin false (0x170A3D70A3D70A * 2 ^ 1023) ∧
    add (ofFrac 1 10) (ofFrac 2 10) = fin false (0x13333333333334 * 2 ^ 1020) ∧
    div (ofInt 1) (ofInt 3) = fin false (0x15555555555555 * 2 ^ 1020) ∧
    sqrt (ofInt 2) = fin false (0x16A09E667F3BCD * 2 ^ 1022) := by
  decide!

end F64

/-! ## The model against well-known values -/

section
open strconv

/-- Roundings, ties, signed zeros and the invalid operations of IEEE 754. -/
theorem F64.known_roundings :
    F64.mul (F64.ofFrac 1 10) (F64.ofInt 3) = F64.fin false (0x13333333333334 * 2 ^ 1020) ∧
    F64.add (F64.ofFrac 1 10) (F64.ofFrac 7 10) = F64.fin false (0x19999999999999 * 2 ^ 1021) ∧
    F64.ofInt (2 ^ 53 + 1) = F64.ofInt (2 ^ 53) ∧
    F64.ofInt (2 ^ 53 + 3) = F64.ofInt (2 ^ 53 + 4) ∧
    F64.ofInt (10 ^ 16 + 1) = F64.ofInt (10 ^ 16) ∧
    F64.sub (F64.ofInt 1) (F64.ofInt 1) = F64.fin false 0 ∧
    F64.mul (F64.fin true 0) (F64.ofInt 5) = F64.fin true 0 ∧
    F64.div (F64.ofInt 1) (F64.fin true 0) = F64.inf true ∧
    F64.div (F64.fin false 0) (F64.fin false 0) = F64.nan ∧
    F64.sub (F64.inf false) (F64.inf false) = F64.nan := by
  decide!

/-- `strconv.ParseFloat` at the boundary cases of Go's own tests: the largest float,
the overflow threshold, the subnormals, and `1e23`. -/
theorem ParseFloat_known_values :
    ParseFloat "1.7976931348623157e308" =
      (F64.fin false ((2 ^ 53 - 1) * 2 ^ 2045), none) ∧
    ParseFloat "1.7976931348623159e308" = (F64.inf false, some NumError.ErrRange) ∧
    ParseFloat "-1e400" = (F64.inf true, some NumError.ErrRange) ∧
    ParseFloat "5e-324" = (F64.fin false 1, none) ∧
    ParseFloat "4e-324" = (F64.fin false 1, none) ∧
    ParseFloat "2e-324" = (F64.fin false 0, none) ∧
    ParseFloat "2.2250738585072014e-308" = (F64.fin false (2 ^ 52), none) ∧
    ParseFloat "0.1" = (F64.fin false (0x1999999999999A * 2 ^ 1018), none) ∧
    ParseFloat "1e23" = (F64.fin false (0x152D02C7E14AF6 * 2 ^ (1074 + 24)), none) ∧
    ParseFloat "-0" = (F64.fin true 0, none) ∧
    ParseFloat ".5" = (F64.ofFrac 1 2, none) ∧
    ParseFloat "5." = (F64.ofInt 5, none) ∧
    ParseFloat "1E2" = (F64.ofInt 100, none) ∧
    ParseFloat "+Inf" = (F64.inf false, none) ∧
    ParseFloat "-infinity" = (F64.inf true, none) ∧
    ParseFloat "NaN" = (F64.nan, none) := by
  decide!

/-- Hexadecimal numbers and digit-separating underscores. -/
theorem ParseFloat_known_hex :
    ParseFloat "0x1p-2" = (F64.ofFrac 1 4, none) ∧
    ParseFloat "0X1P-2" = (F64.ofFrac 1 4, none) ∧
    ParseFloat "0x1ep-1" = (F64.ofInt 15, none) ∧
    ParseFloat "-0x1_ep-1" = (F64.ofInt (-15), none) ∧
    ParseFloat "0x1fFe2.p0" = (F64.ofInt 131042, none) ∧
    ParseFloat "0x0.fp0" = (F64.ofFrac 15 16, none) ∧
    ParseFloat "0x_1_2.3_4_5p+1_2" = (F64.ofInt 74565, none) ∧
    ParseFloat "0x1.fffffffffffffp1023" = (F64.fin false ((2 ^ 53 - 1) * 2 ^ 2045), none) ∧
    ParseFloat "0x1p1024" = (F64.inf false, some NumError.ErrRange) ∧
    ParseFloat "0x1p-1074" = (F64.fin false 1, none) ∧
    ParseFloat "1_0" = (F64.ofInt 10, none) ∧
    ParseFloat "1_23.50_0e+1_2" = (F64.ofInt 123500000000000, none) := by
  decide!

/-- Misplaced underscores and incomplete hexadecimal numbers are rejected. -/
theorem ParseFloat_known_underscore_errors :
    ParseFloat "0x1e2" = (F64.zero, some NumError.ErrSyntax) ∧
    ParseFloat "1p2" = (F64.zero, some NumError.ErrSyntax) ∧
    ParseFloat "0x" = (F64.zero, some NumError.ErrSyntax) ∧
    ParseFloat "_123.5e+12" = (F64.zero, some NumError.ErrSyntax) ∧
    ParseFloat "-_123.5e+12" = (F64.zero, some NumError.ErrSyntax) ∧
    ParseFloat "1__23.5e+12" = (F64.zero, some NumError.ErrSyntax) ∧
    ParseFloat "123_.5e+12" = (F64.zero, some NumError.ErrSyntax) ∧
    ParseFloat "123._5e+12" = (F64.zero, some NumError.ErrSyntax) ∧
    ParseFloat "123.5_e+12" = (F64.zero, some NumError.ErrSyntax) ∧
    ParseFloat "123.5e+_12" = (F64.zero, some NumError.ErrSyntax) ∧
    ParseFloat "123.5e+12_" = (F64.zero, some NumError.ErrSyntax) ∧
    ParseFloat "0x__12.345p+12" = (F64.zero, some NumError.ErrSyntax) ∧
    ParseFloat "0x12.345_p+12" = (F64.zero, some NumError.ErrSyntax) ∧
    ParseFloat "0x12.345p+12_" = (F64.zero, some NumError.ErrSyntax) := by
  decide!

/-- Strings that `strconv.ParseFloat` rejects. -/
theorem ParseFloat_known_errors :
    ParseFloat "+nan" = (F64.zero, some NumError.ErrSyntax) ∧
    ParseFloat "infinit" = (F64.zero, some NumError.ErrSyntax) ∧
    ParseFloat "" = (F64.zero, some NumError.ErrSyntax) ∧
    ParseFloat "." = (F64.zero, some NumError.ErrSyntax) ∧
    ParseFloat "1e" = (F64.zero, some NumError.ErrSyntax) ∧
    ParseFloat "1e+" = (F64.zero, some NumError.ErrSyntax) ∧
    ParseFloat "1.5x" = (F64.zero, some NumError.ErrSyntax) ∧
    ParseFloat "1.2.3" = (F64.zero, some NumError.ErrSyntax) ∧
    ParseFloat " 1" = (F64.zero, some NumError.ErrSyntax) := by
  decide!

/-- `strconv.ParseInt` at the bounds of `int64` and on strings it rejects. -/
theorem ParseInt_known_values :
    ParseInt "9223372036854775807" = (2 ^ 63 - 1, none) ∧
    ParseInt "9223372036854775808" = (2 ^ 63 - 1, some NumError.ErrRange) ∧
    ParseInt "-9223372036854775808" = (-(2 ^ 63), none) ∧
    ParseInt "-9223372036854775809" = (-(2 ^ 63), some NumError.ErrRange) ∧
    ParseInt "18446744073709551616" = (2 ^ 63 - 1, some NumError.ErrRange) ∧
    ParseInt "-18446744073709551616" = (-(2 ^ 63), some NumError.ErrRange) ∧
    ParseInt "+5" = (5, none) ∧
    ParseInt "-0" = (0, none) ∧
    ParseInt "012" = (12, none) ∧
    ParseInt "" = (0, some NumError.ErrSyntax) ∧
    ParseInt "-" = (0, some NumError.ErrSyntax) ∧
    ParseInt "12345x" = (0, some NumError.ErrSyntax) ∧
    ParseInt "1_000" = (0, some NumError.ErrSyntax) ∧
    ParseInt "148976.11427815" = (0, some NumError.ErrSyntax) ∧
    ParseInt "99999999999999999999x" = (2 ^ 63 - 1, some NumError.ErrRange) := by
  decide!

end

/-! ## C1: candle classification -/

namespace F64

theorem units_zero (a : Bool) : units a 0 = 0 := by
  cases a <;> simp [units]

theorem units_neg (a : Bool) (m : Nat) : units (!a) m = -units a m := by
  cases a <;> simp [units]

/-- Sign tests of a correctly rounded nonzero integer number of units. -/
theorem round_sign (z : Int) (hz : z ≠ 0) :
    lt zero (round (decide (z < 0)) z.natAbs 1) = decide (0 < z) ∧
    lt (round (decide (z < 0)) z.natAbs 1) zero = decide (z < 0) ∧
    eq (round (decide (z < 0)) z.natAbs 1) zero = false := by
  have hpos : 0 < roundMag z.natAbs 1 :=
    roundMag_pos _ _ (by norm_num) (by omega)
  unfold round
  simp only
  by_cases hneg : z < 0
  · have h1 : ¬ (0 < z) := by omega
    split_ifs
    · simp [lt, eq, zero, units, hneg, h1]
    · simp [lt, eq, zero, units, hneg, h1]
      omega
  · have h1 : 0 < z := by omega
    split_ifs
    · simp [lt, eq, zero, units, hneg, h1]
    · simp [lt, eq, zero, units, hneg, h1]
      omega

/-- Sign tests of the difference of two finite floats. -/
theorem sub_fin_sign (a b : Bool) (m k : Nat) :
    lt zero (sub (fin b k) (fin a m)) = decide (units a m < units b k) ∧
    lt (sub (fin b k) (fin a m)) zero = decide (units b k < units a m) ∧
    eq (sub (fin b k) (fin a m)) zero = decide (units b k = units a m) := by
  unfold sub neg add
  simp only [units_neg]
  by_cases hz : units b k + -units a m = 0
  · simp only [hz, if_true]
    have h1 : units b k = units a m := by omega
    simp [lt, eq, zero, units_zero, h1]
  · simp only [hz, if_false]
    obtain ⟨h1, h2, h3⟩ := round_sign _ hz
    rw [h1, h2, h3]
    refine ⟨?_, ?_, ?_⟩
    · exact decide_eq_decide.mpr (by constructor <;> intro h <;> omega)
    · exact decide_eq_decide.mpr (by constructor <;> intro h <;> omega)
    · symm
      rw [decide_eq_false_iff_not]
      omega

end F64

theorem candleType_distinct : BULL ≠ BEAR ∧ BULL ≠ DOJI ∧ BEAR ≠ DOJI := by decide

/-- The classification of two finite prices follows the order of their exact values. -/
theorem calculateCandleType_fin (a b : Bool) (m k : Nat) :
    calculateCandleType (F64.fin a m) (F64.fin b k) =
      if F64.units a m < F64.units b k then BULL
      else if F64.units b k < F64.units a m then BEAR else DOJI := by
  obtain ⟨h1, h2, _⟩ := F64.sub_fin_sign a b m k
  unfold calculateCandleType F64.gt
  simp only [h1, h2, decide_eq_true_eq]
  split_ifs <;> rfl

/-- C1 (as the code has it): calculateCandleType always returns one of BULL, BEAR and
DOJI; it returns BULL exactly when closePrice > openPrice, BEAR exactly when
closePrice < openPrice, and DOJI exactly when closePrice == openPrice or one of the
two prices is NaN. -/
theorem calculateCandleType_spec (openPrice closePrice : F64) :
    (calculateCandleType openPrice closePrice = BULL ∨
      calculateCandleType openPrice closePrice = BEAR ∨
      calculateCandleType openPrice closePrice = DOJI) ∧
    (calculateCandleType openPrice closePrice = BULL ↔
      F64.gt closePrice openPrice = true) ∧
    (calculateCandleType openPrice closePrice = BEAR ↔
      F64.lt closePrice openPrice = true) ∧
    (calculateCandleType openPrice closePrice = DOJI ↔
      (F64.eq closePrice openPrice = true ∨ openPrice = F64.nan ∨ closePrice = F64.nan)) := by
  obtain ⟨d1, d2, d3⟩ := candleType_distinct
  cases openPrice with
  | nan =>
    cases closePrice <;>
      simp [calculateCandleType, F64.sub, F64.neg, F64.add, F64.gt, F64.lt, F64.eq, F64.zero,
        d1.symm, d2.symm, d3.symm]
  | inf a =>
    cases closePrice with
    | nan =>
      simp [calculateCandleType, F64.sub, F64.neg, F64.add, F64.gt, F64.lt, F64.eq, F64.zero,
        d1.symm, d2.symm, d3.symm]
    | inf b =>
      cases a <;> cases b <;>
        simp [calculateCandleType, F64.sub, F64.neg, F64.add, F64.gt, F64.lt, F64.eq, F64.zero,
          d1, d2, d3, d1.symm, d2.symm, d3.symm]
    | fin b k =>
      cases a <;>
        simp [calculateCandleType, F64.sub, F64.neg, F64.add, F64.gt, F64.lt, F64.eq, F64.zero,
          d1, d2, d3, d1.symm, d2.symm, d3.symm]
  | fin a m =>
    cases closePrice with
    | nan =>
      simp [calculateCandleType, F64.sub, F64.neg, F64.add, F64.gt, F64.lt, F64.eq, F64.zero,
        d1.symm, d2.symm, d3.symm]
    | inf b =>
      cases b <;>
        simp [calculateCandleType, F64.sub, F64.neg, F64.add, F64.gt, F64.lt, F64.eq, F64.zero,
          d1, d2, d3, d1.symm, d2.symm, d3.symm]
    | fin b k =>
      rw [calculateCandleType_fin]
      simp only [F64.gt, F64.lt, F64.eq, decide_eq_true_eq]
      split_ifs with h1 h2
      · simp [d1, d2, h1]
        omega
      · simp [d1.symm, d3, h1, h2]
        omega
      · simp [d2.symm, d3.symm, h1, h2]
        omega

/-- C1 (as stated) fails: with a NaN open price the result is DOJI although the
close price does not equal the open price. -/
theorem calculateCandleType_nan_doji :
    calculateCandleType F64.nan (F64.ofInt 1) = DOJI ∧
      F64.eq (F64.ofInt 1) F64.nan = false := by
  decide!

/-! ## C2: per-candle statistics -/

/-- A loop that appends one element per input computes a `map`. -/
theorem foldl_append_singleton {α β : Type} (f : α → β) (l : List α) (init : List β) :
    l.foldl (fun acc x => acc ++ [f x]) init = init ++ l.map f := by
  induction l generalizing init with
  | nil => simp
  | cons x xs ih => simp [List.foldl_cons, ih]

/-- C2: calculateCandleStats returns one CandleStats per candle, in the same order:
the i-th result embeds the i-th candle unchanged, its candleType is
calculateCandleType(Open, Close), and its returnPercentage is (Close − Open) / Open
in float64 arithmetic (for every candle, hence for every candle with nonzero Open). -/
theorem calculateCandleStats_spec (candleList : List Candle) :
    (calculateCandleStats candleList).length = candleList.length ∧
    (∀ i : Nat, (calculateCandleStats candleList).get? i =
      (candleList.get? i).map (fun candle =>
        { toCandle := candle
          candleType := calculateCandleType candle.Open candle.Close
          returnPercentage := F64.div (F64.sub candle.Close candle.Open) candle.Open })) ∧
    (calculateCandleStats candleList).map CandleStats.toCandle = candleList := by
  have h : calculateCandleStats candleList =
      candleList.map (fun candle =>
        { toCandle := candle
          candleType := calculateCandleType candle.Open candle.Close
          returnPercentage := F64.div (F64.sub candle.Close candle.Open) candle.Open }) := by
    unfold calculateCandleStats calculateReturnPercentageValue
    rw [foldl_append_singleton]
    simp
  rw [h]
  refine ⟨by simp, fun i => by simp [List.getElem?_map], ?_⟩
  simp [List.map_map, Function.comp_def]

/-! ## C6, C7: the aggregated report -/

/-- The values handed to the statistics package are the absolute return percentages. -/
theorem calculateReport_eq (candleStatsList : List CandleStats) :
    calculateReport candleStatsList =
      { currencyPair := currencyPair
        candleStatsList := candleStatsList
        stats :=
          [("return_percentage",
            { Name := "Return Percentage"
              Std := (stats.StandardDeviationPopulation
                (candleStatsList.map (fun v => F64.abs v.returnPercentage))).1
              Mean := (stats.Mean
                (candleStatsList.map (fun v => F64.abs v.returnPercentage))).1
              ValueAtRisk := F64.mul (F64.ofFrac 288 100)
                (stats.StandardDeviationPopulation
                  (candleStatsList.map (fun v => F64.abs v.returnPercentage))).1 })] } := by
  unfold calculateReport
  simp only [foldl_append_singleton, List.nil_append]

/-- C6: for a non-empty list of CandleStats the stats mapping of the report has the
single key "return_percentage"; its record has Name "Return Percentage", Mean the
arithmetic mean (sum divided by N) of the absolute return percentages, Std the
population standard deviation (square root of the mean squared deviation, divisor N)
of the same values, and ValueAtRisk = 2.88 × Std. -/
theorem calculateReport_spec (candleStatsList : List CandleStats)
    (hne : candleStatsList ≠ []) :
    ∃ st : Stats,
      (calculateReport candleStatsList).stats = [("return_percentage", st)] ∧
      st.Name = "Return Percentage" ∧
      st.Mean =
        F64.div
          ((candleStatsList.map (fun v => F64.abs v.returnPercentage)).foldl F64.add F64.zero)
          (F64.ofInt candleStatsList.length) ∧
      st.Std =
        F64.sqrt (F64.div
          ((candleStatsList.map (fun v => F64.abs v.returnPercentage)).foldl
            (fun acc x => F64.add acc (F64.mul (F64.sub x st.Mean) (F64.sub x st.Mean)))
            F64.zero)
          (F64.ofInt candleStatsList.length)) ∧
      st.ValueAtRisk = F64.mul (F64.ofFrac 288 100) st.Std := by
  have hlen : ¬ candleStatsList.length = 0 := by
    intro h
    exact hne (List.length_eq_zero.mp h)
  rw [calculateReport_eq]
  refine ⟨{ Name := "Return Percentage"
            Std := (stats.StandardDeviationPopulation
              (candleStatsList.map (fun v => F64.abs v.returnPercentage))).1
            Mean := (stats.Mean
              (candleStatsList.map (fun v => F64.abs v.returnPercentage))).1
            ValueAtRisk := F64.mul (F64.ofFrac 288 100)
              (stats.StandardDeviationPopulation
                (candleStatsList.map (fun v => F64.abs v.returnPercentage))).1 },
    rfl, rfl, ?_, ?_, ?_⟩
  · simp only [stats.Mean, stats.Sum, List.length_map, hlen, if_false]
  · simp only [stats.StandardDeviationPopulation, stats.PopulationVariance, stats.Mean,
      stats.Sum, List.length_map, hlen, if_false]
  · dsimp only

/-- C6 at three records with the returns 0.1, -0.1 and 0: the mean of the absolute
values is 0.2 / 3, the deviation is not zero, and the value at risk is 2.88 times it. -/
theorem calculateReport_spec_witness :
    sampleStatsList ≠ [] ∧
    ∃ st : Stats,
      (calculateReport sampleStatsList).stats = [("return_percentage", st)] ∧
      st.Name = "Return Percentage" ∧
      st.Mean = F64.div (F64.ofFrac 2 10) (F64.ofInt 3) ∧
      st.Mean = F64.fin false (0x11111111111111 * 2 ^ 1018) ∧
      st.Std = F64.fin false (0x1822CB17FF2EB9 * 2 ^ 1017) ∧
      st.ValueAtRisk = F64.mul (F64.ofFrac 288 100) st.Std ∧
      st.ValueAtRisk = F64.fin false (0x1160BB2FFF6952 * 2 ^ 1019) ∧
      F64.roundDecimals 4 st.Mean = some 667 ∧
      F64.roundDecimals 4 st.Std = some 471 ∧
      F64.roundDecimals 4 st.ValueAtRisk = some 1358 := by
  refine ⟨by decide, ?_⟩
  obtain ⟨st, h1, h2, h3, h4, h5⟩ := calculateReport_spec sampleStatsList (by decide)
  have hm : st.Mean = F64.fin false (0x11111111111111 * 2 ^ 1018) := by
    rw [h3]
    decide!
  have hs : st.Std = F64.fin false (0x1822CB17FF2EB9 * 2 ^ 1017) := by
    rw [h4, hm]
    decide!
  have hv : st.ValueAtRisk = F64.fin false (0x1160BB2FFF6952 * 2 ^ 1019) := by
    rw [h5, hs]
    decide!
  refine ⟨st, h1, h2, ?_, hm, hs, h5, hv, ?_, ?_, ?_⟩
  · rw [hm]
    decide!
  · rw [hm]
    decide!
  · rw [hs]
    decide!
  · rw [hv]
    decide!

/-- C7 (as the code has it): for an empty list calculateReport still returns a report:
the statistics package reports its empty-input error for both reductions, the error
is dropped, and the "return_percentage" record holds the values that come with the
error: Std = NaN, Mean = NaN and ValueAtRisk = 2.88 × NaN = NaN. -/
theorem calculateReport_empty :
    (stats.StandardDeviationPopulation []).2 = some StatsError.EmptyInput ∧
    (stats.Mean []).2 = some StatsError.EmptyInput ∧
    (calculateReport []).stats =
      [("return_percentage",
        { Name := "Return Percentage", Std := F64.nan, Mean := F64.nan,
          ValueAtRisk := F64.nan })] := by
  decide!

/-- C7 (as stated) fails: the record of an empty list is not the zero-stats record;
none of Std, Mean and ValueAtRisk equals 0. -/
theorem calculateReport_empty_not_zero :
    (calculateReport []).stats ≠
      [("return_percentage",
        { Name := "Return Percentage", Std := F64.zero, Mean := F64.zero,
          ValueAtRisk := F64.zero })] ∧
    (calculateReport []).stats.map
      (fun kv => (F64.eq kv.2.Std F64.zero, F64.eq kv.2.Mean F64.zero,
        F64.eq kv.2.ValueAtRisk F64.zero)) = [(false, false, false)] := by
  decide!

/-! ## C9: the three-candle scenario -/

/-- The statistics of the absolute returns `[0.1, 0.1, 0]`, rounded to four decimals. -/
theorem scenario_stats :
    (calculateReport
        [⟨⟨0, F64.ofInt 100, F64.zero, F64.zero, F64.ofInt 110, 0, 0⟩, BULL, F64.ofFrac 1 10⟩,
         ⟨⟨0, F64.ofInt 100, F64.zero, F64.zero, F64.ofInt 90, 0, 0⟩, BEAR, F64.ofFrac (-1) 10⟩,
         ⟨⟨0, F64.ofInt 100, F64.zero, F64.zero, F64.ofInt 100, 0, 0⟩, DOJI, F64.zero⟩]).stats.map
      (fun kv => (kv.1, F64.roundDecimals 4 kv.2.Mean, F64.roundDecimals 4 kv.2.Std,
        F64.roundDecimals 4 kv.2.ValueAtRisk)) =
      [("return_percentage", some 667, some 471, some 1358)] := by
  decide!

/-- The report depends on the list of CandleStats only through the return percentages. -/
theorem calculateReport_stats_congr (l l' : List CandleStats)
    (h : l.map (fun v => v.returnPercentage) = l'.map (fun v => v.returnPercentage)) :
    (calculateReport l).stats = (calculateReport l').stats := by
  have h2 : l.map (fun v => F64.abs v.returnPercentage) =
      l'.map (fun v => F64.abs v.returnPercentage) := by
    have := congrArg (List.map F64.abs) h
    simpa [List.map_map, Function.comp_def] using this
  rw [calculateReport_eq, calculateReport_eq, h2]

/-- C9 (as the code has it): for three candles with Opens [100, 100, 100] and Closes
[110, 90, 100], calculateCandleStats gives candleTypes [BULL, BEAR, DOJI] and
returnPercentages [0.10, -0.10, 0.00], and calculateReport gives a single
"return_percentage" record whose values, rounded to four decimal places, are
Mean = 0.0667, Std = 0.0471 and ValueAtRisk = 0.1358. -/
theorem scenario_spec (candleList : List Candle)
    (hOpen : candleList.map (fun c => c.Open) =
      [F64.ofInt 100, F64.ofInt 100, F64.ofInt 100])
    (hClose : candleList.map (fun c => c.Close) =
      [F64.ofInt 110, F64.ofInt 90, F64.ofInt 100]) :
    (calculateCandleStats candleList).map (fun v => v.candleType) = [BULL, BEAR, DOJI] ∧
    (calculateCandleStats candleList).map (fun v => v.returnPercentage) =
      [F64.ofFrac 1 10, F64.ofFrac (-1) 10, F64.zero] ∧
    (calculateReport (calculateCandleStats candleList)).stats.map
      (fun kv => (kv.1, F64.roundDecimals 4 kv.2.Mean, F64.roundDecimals 4 kv.2.Std,
        F64.roundDecimals 4 kv.2.ValueAtRisk)) =
      [("return_percentage", some 667, some 471, some 1358)] := by
  have hmap : calculateCandleStats candleList =
      candleList.map (fun candle =>
        { toCandle := candle
          candleType := calculateCandleType candle.Open candle.Close
          returnPercentage := F64.div (F64.sub candle.Close candle.Open) candle.Open }) := by
    unfold calculateCandleStats calculateReturnPercentageValue
    rw [foldl_append_singleton]
    simp
  have hlen : candleList.length = 3 := by
    have h := congrArg List.length hOpen
    simpa only [List.length_map, List.length_cons, List.length_nil] using h
  obtain ⟨c1, c2, c3, rfl⟩ := List.length_eq_three.mp hlen
  · simp only [List.map_cons, List.map_nil, List.cons.injEq, and_true] at hOpen hClose
    obtain ⟨o1, o2, o3⟩ := hOpen
    obtain ⟨k1, k2, k3⟩ := hClose
    have t1 : calculateCandleType (F64.ofInt 100) (F64.ofInt 110) = BULL := by decide!
    have t2 : calculateCandleType (F64.ofInt 100) (F64.ofInt 90) = BEAR := by decide!
    have t3 : calculateCandleType (F64.ofInt 100) (F64.ofInt 100) = DOJI := by decide!
    have r1 : F64.div (F64.sub (F64.ofInt 110) (F64.ofInt 100)) (F64.ofInt 100) =
        F64.ofFrac 1 10 := by decide!
    have r2 : F64.div (F64.sub (F64.ofInt 90) (F64.ofInt 100)) (F64.ofInt 100) =
        F64.ofFrac (-1) 10 := by decide!
    have r3 : F64.div (F64.sub (F64.ofInt 100) (F64.ofInt 100)) (F64.ofInt 100) =
        F64.zero := by decide!
    have hrp : (calculateCandleStats [c1, c2, c3]).map (fun v => v.returnPercentage) =
        [F64.ofFrac 1 10, F64.ofFrac (-1) 10, F64.zero] := by
      rw [hmap]
      simp only [List.map_cons, List.map_nil, o1, o2, o3, k1, k2, k3, r1, r2, r3]
    refine ⟨?_, hrp, ?_⟩
    · rw [hmap]
      simp only [List.map_cons, List.map_nil, o1, o2, o3, k1, k2, k3, t1, t2, t3]
    · rw [calculateReport_stats_congr _
        [⟨⟨0, F64.ofInt 100, F64.zero, F64.zero, F64.ofInt 110, 0, 0⟩, BULL, F64.ofFrac 1 10⟩,
         ⟨⟨0, F64.ofInt 100, F64.zero, F64.zero, F64.ofInt 90, 0, 0⟩, BEAR, F64.ofFrac (-1) 10⟩,
         ⟨⟨0, F64.ofInt 100, F64.zero, F64.zero, F64.ofInt 100, 0, 0⟩, DOJI, F64.zero⟩]
        (by rw [hrp]; simp only [List.map_cons, List.map_nil])]
      exact scenario_stats

/-- C9 at three concrete candles. -/
theorem scenario_spec_witness :
    (calculateCandleStats
      [⟨1, F64.ofInt 100, F64.ofInt 120, F64.ofInt 95, F64.ofInt 110, 7, 2⟩,
       ⟨3, F64.ofInt 100, F64.ofInt 105, F64.ofInt 80, F64.ofInt 90, 8, 4⟩,
       ⟨5, F64.ofInt 100, F64.ofInt 101, F64.ofInt 99, F64.ofInt 100, 9, 6⟩]).map
        (fun v => v.candleType) = [BULL, BEAR, DOJI] ∧
    (calculateCandleStats
      [⟨1, F64.ofInt 100, F64.ofInt 120, F64.ofInt 95, F64.ofInt 110, 7, 2⟩,
       ⟨3, F64.ofInt 100, F64.ofInt 105, F64.ofInt 80, F64.ofInt 90, 8, 4⟩,
       ⟨5, F64.ofInt 100, F64.ofInt 101, F64.ofInt 99, F64.ofInt 100, 9, 6⟩]).map
        (fun v => v.returnPercentage) = [F64.ofFrac 1 10, F64.ofFrac (-1) 10, F64.zero] ∧
    (calculateReport (calculateCandleStats
      [⟨1, F64.ofInt 100, F64.ofInt 120, F64.ofInt 95, F64.ofInt 110, 7, 2⟩,
       ⟨3, F64.ofInt 100, F64.ofInt 105, F64.ofInt 80, F64.ofInt 90, 8, 4⟩,
       ⟨5, F64.ofInt 100, F64.ofInt 101, F64.ofInt 99, F64.ofInt 100, 9, 6⟩])).stats.map
      (fun kv => (kv.1, F64.roundDecimals 4 kv.2.Mean, F64.roundDecimals 4 kv.2.Std,
        F64.roundDecimals 4 kv.2.ValueAtRisk)) =
      [("return_percentage", some 667, some 471, some 1358)] :=
  scenario_spec _ (by simp only [List.map_cons, List.map_nil])
    (by simp only [List.map_cons, List.map_nil])

/-- C9 (as stated) fails: on three candles with Opens [100, 100, 100] and Closes
[110, 90, 100] the ValueAtRisk is 0.1358 when rounded to four decimals, not 0.1356. -/
theorem scenario_var_not_1356 :
    (calculateReport (calculateCandleStats
      [⟨0, F64.ofInt 100, F64.zero, F64.zero, F64.ofInt 110, 0, 0⟩,
       ⟨0, F64.ofInt 100, F64.zero, F64.zero, F64.ofInt 90, 0, 0⟩,
       ⟨0, F64.ofInt 100, F64.zero, F64.zero, F64.ofInt 100, 0, 0⟩])).stats.map
      (fun kv => F64.roundDecimals 4 kv.2.ValueAtRisk) = [some 1358] ∧
    (calculateReport (calculateCandleStats
      [⟨0, F64.ofInt 100, F64.zero, F64.zero, F64.ofInt 110, 0, 0⟩,
       ⟨0, F64.ofInt 100, F64.zero, F64.zero, F64.ofInt 90, 0, 0⟩,
       ⟨0, F64.ofInt 100, F64.zero, F64.zero, F64.ofInt 100, 0, 0⟩])).stats.map
      (fun kv => F64.roundDecimals 4 kv.2.ValueAtRisk) ≠ [some 1356] := by
  decide!

/-! ## C3, C4, C5: the candle parser -/

/-- Whatever else happens, the loop fails once one of its rows fails. -/
theorem convertFromArray_loop_fails (rows : List (List JSONValue)) (init : List Candle)
    (h : ∃ v ∈ rows, ∃ p, convertRow v = Except.error p) :
    ∃ p, rows.foldlM
      (fun candleList v => do
        let candle ← convertRow v
        pure (candleList ++ [candle])) init = Except.error p := by
  induction rows generalizing init with
  | nil =>
    obtain ⟨v, hv, _⟩ := h
    simp at hv
  | cons w ws ih =>
    rw [List.foldlM_cons]
    cases hw : convertRow w with
    | error p => exact ⟨p, rfl⟩
    | ok c =>
      have hrest : ∃ v ∈ ws, ∃ p, convertRow v = Except.error p := by
        obtain ⟨v, hv, p, hp⟩ := h
        rcases List.mem_cons.mp hv with rfl | hv'
        · rw [hw] at hp
          cases hp
        · exact ⟨v, hv', p, hp⟩
      have h2 := ih (init ++ [c]) hrest
      simp only [bind, Except.bind, pure, Except.pure] at h2 ⊢
      exact h2

/-- A row converts only if it has a field at index 6. -/
theorem convertRow_ok_length (v : List JSONValue) (c : Candle)
    (h : convertRow v = Except.ok c) : 7 ≤ v.length := by
  by_contra hlt
  have h6 : index v 6 = Except.error (Panic.indexOutOfRange 6 v.length) := by
    unfold index
    have : v.get? 6 = none := List.get?_eq_none.mpr (by omega)
    rw [this]
  unfold convertRow at h
  rw [h6] at h
  simp only [bind, Except.bind, pure, Except.pure] at h
  repeat' split at h
  all_goals cases h

/-- Integer timestamps inside the `int64` range are converted exactly. -/
theorem F64.toInt64_exact (z : Int) (hlo : -(2 ^ 63 : Int) ≤ z) (hhi : z < 2 ^ 63) :
    F64.toInt64 (F64.fin (decide (z < 0)) (z.natAbs * F64.one_units)) = z := by
  have hpos : 0 < F64.one_units := by
    unfold F64.one_units
    positivity
  unfold F64.toInt64
  simp only [Nat.mul_div_cancel _ hpos]
  by_cases hneg : z < 0
  · simp only [hneg, decide_True, if_true]
    have h1 : z.natAbs ≤ 2 ^ 63 := by omega
    rw [if_pos h1]
    omega
  · simp only [hneg, decide_False, Bool.false_eq_true, if_false]
    have h1 : z.natAbs < 2 ^ 63 := by omega
    rw [if_pos h1]
    omega

/-! ### Reading numbers -/

section
open strconv

theorem isDigit_bounds (c : Char) (h : isDigit c = true) : 48 ≤ c.toNat ∧ c.toNat ≤ 57 := by
  unfold isDigit at h
  simpa using h

theorem isDigit_ne (c d : Char) (h : isDigit c = true) (hd : isDigit d = false) : c ≠ d := by
  intro e
  rw [e, hd] at h
  cases h

theorem isDigit_toLower (c : Char) (h : isDigit c = true) : c.toLower = c := by
  obtain ⟨h1, h2⟩ := isDigit_bounds c h
  unfold Char.toLower
  have h3 : ¬ (c.toNat ≥ 65 ∧ c.toNat ≤ 90) := by omega
  rw [if_neg h3]

theorem digitsValue_append (a b : List Char) (n : Nat) :
    digitsValue (a ++ b) n = digitsValue b (digitsValue a n) := by
  simp [digitsValue, List.foldl_append]

theorem le_digitsValue (ds : List Char) (n : Nat) : n ≤ digitsValue ds n := by
  induction ds generalizing n with
  | nil => simp [digitsValue]
  | cons c cs ih =>
    have := ih (n * 10 + digitVal c)
    simp only [digitsValue, List.foldl_cons] at this ⊢
    omega

theorem parseUintLoop_digits (ds : List Char) (n : Nat)
    (hds : ∀ c ∈ ds, isDigit c = true) (hmax : digitsValue ds n ≤ maxUint64) :
    parseUintLoop ds n = (digitsValue ds n, none) := by
  induction ds generalizing n with
  | nil => simp [parseUintLoop, digitsValue]
  | cons c cs ih =>
    have hc := hds c (List.mem_cons_self _ _)
    have hcs : ∀ d ∈ cs, isDigit d = true := fun d hd => hds d (List.mem_cons_of_mem _ hd)
    have hstep : digitsValue (c :: cs) n = digitsValue cs (n * 10 + digitVal c) := by
      simp [digitsValue]
    rw [hstep] at hmax ⊢
    have hle := le_digitsValue cs (n * 10 + digitVal c)
    have h1 : ¬ (maxUint64 / 10 + 1 ≤ n) := by
      have : n * 10 ≤ maxUint64 := by omega
      omega
    have h2 : ¬ (maxUint64 < n * 10 + digitVal c) := by omega
    unfold parseUintLoop
    simp only [hc, if_true, h1, if_false, h2]
    exact ih _ hcs hmax


theorem ParseUint_digits (ds : List Char) (hne : ds ≠ [])
    (hds : ∀ c ∈ ds, isDigit c = true) (hmax : digitsValue ds 0 ≤ maxUint64) :
    ParseUint ds = (digitsValue ds 0, none) := by
  unfold ParseUint
  rw [if_neg hne]
  exact parseUintLoop_digits ds 0 hds hmax

theorem maxUint64_eq : maxUint64 = 18446744073709551615 := by
  unfold maxUint64
  norm_num

theorem parseIntSigned_digits (neg : Bool) (ds : List Char) (hne : ds ≠ [])
    (hds : ∀ c ∈ ds, isDigit c = true)
    (hmax : if neg then digitsValue ds 0 ≤ 2 ^ 63 else digitsValue ds 0 < 2 ^ 63) :
    parseIntSigned neg ds =
      (if neg then -(digitsValue ds 0 : Int) else (digitsValue ds 0 : Int), none) := by
  have hm : digitsValue ds 0 ≤ maxUint64 := by
    rw [maxUint64_eq]
    split at hmax <;> omega
  unfold parseIntSigned
  rw [ParseUint_digits ds hne hds hm]
  cases neg
  · simp only [Bool.false_eq_true, if_false] at hmax
    have h1 : ¬ (2 ^ 63 ≤ digitsValue ds 0) := by omega
    simp [h1]
    omega
  · simp only [if_true] at hmax
    have h1 : ¬ (2 ^ 63 < digitsValue ds 0) := by omega
    simp [h1]
    omega

/-- `strconv.ParseInt` on the text of an integer inside the `int64` range. -/
theorem ParseInt_decimalText (neg : Bool) (ds : List Char) (hne : ds ≠ [])
    (hds : ∀ c ∈ ds, isDigit c = true)
    (hmax : if neg then digitsValue ds 0 ≤ 2 ^ 63 else digitsValue ds 0 < 2 ^ 63) :
    ParseInt (decimalText neg ds []) =
      (if neg then -(digitsValue ds 0 : Int) else (digitsValue ds 0 : Int), none) := by
  have hp := parseIntSigned_digits neg ds hne hds hmax
  unfold ParseInt decimalText
  cases neg
  · obtain ⟨c, cs, rfl⟩ := List.exists_cons_of_ne_nil hne
    have hc := hds c (List.mem_cons_self _ _)
    have h1 : c ≠ '+' := isDigit_ne c '+' hc (by decide)
    have h2 : c ≠ '-' := isDigit_ne c '-' hc (by decide)
    simp only [Bool.false_eq_true, if_false, if_true, List.nil_append, List.append_nil,
      List.cons_append, String.toList, h1, h2]
    exact hp
  · simp only [if_true, List.append_nil, List.cons_append, List.nil_append, String.toList,
      Char.reduceEq, if_false]
    exact hp


theorem isDigit_not_underscore (c : Char) (h : isDigit c = true) : c ≠ '_' :=
  isDigit_ne c '_' h (by decide)

theorem readMantissa_digits (ds t : List Char) (mant frac : Nat)
    (sawdot sawdigits underscores : Bool) (hds : ∀ c ∈ ds, isDigit c = true) :
    readMantissa false (ds ++ t) mant frac sawdot sawdigits underscores =
      readMantissa false t (digitsValue ds mant) (if sawdot then frac + ds.length else frac)
        sawdot (sawdigits || !ds.isEmpty) underscores := by
  induction ds generalizing mant frac sawdigits with
  | nil => simp [digitsValue]
  | cons c cs ih =>
    have hc := hds c (List.mem_cons_self _ _)
    have hcs : ∀ d ∈ cs, isDigit d = true := fun d hd => hds d (List.mem_cons_of_mem _ hd)
    have h0 : c ≠ '_' := isDigit_not_underscore c hc
    have h1 : c ≠ '.' := isDigit_ne c '.' hc (by decide)
    rw [List.cons_append, readMantissa]
    simp only [h0, h1, if_false, hc, if_true, Bool.false_eq_true]
    rw [ih _ _ _ hcs]
    cases sawdot
    · simp [digitsValue]
    · have e : frac + 1 + cs.length = frac + (cs.length + 1) := by omega
      simp [digitsValue, e]

/-- The mantissa loop on the characters of a decimal text. -/
theorem readMantissa_decimal (ip fp : List Char) (hne : ip ≠ [])
    (hip : ∀ c ∈ ip, isDigit c = true) (hfp : ∀ c ∈ fp, isDigit c = true) :
    readMantissa false (ip ++ (if fp = [] then [] else '.' :: fp)) 0 0 false false false =
      (digitsValue (ip ++ fp) 0, fp.length, true, false, []) := by
  have hi : (false || !ip.isEmpty) = true := by
    cases ip with
    | nil => exact absurd rfl hne
    | cons _ _ => rfl
  rw [readMantissa_digits ip _ 0 0 false false false hip, hi]
  by_cases hf : fp = []
  · subst hf
    simp [readMantissa]
  · rw [if_neg hf, readMantissa]
    simp only [Char.reduceEq, if_true, Bool.false_eq_true, if_false]
    have := readMantissa_digits fp [] (digitsValue ip 0) 0 true true false hfp
    rw [List.append_nil] at this
    rw [this, digitsValue_append]
    simp [readMantissa]

/-- A text of digits and at most a point does not start with the base prefix `0x`. -/
theorem hexPrefix_decimal (ip fp : List Char)
    (hip : ∀ c ∈ ip, isDigit c = true) (hfp : ∀ c ∈ fp, isDigit c = true) :
    hexPrefix (ip ++ (if fp = [] then [] else '.' :: fp)) = false := by
  have hall : ∀ c ∈ ip ++ (if fp = [] then [] else '.' :: fp), c.toLower ≠ 'x' := by
    intro c hc
    rcases List.mem_append.mp hc with h | h
    · rw [isDigit_toLower c (hip c h)]
      exact isDigit_ne c 'x' (hip c h) (by decide)
    · by_cases hf : fp = []
      · rw [if_pos hf] at h
        cases h
      · rw [if_neg hf] at h
        rcases List.mem_cons.mp h with rfl | h'
        · decide
        · rw [isDigit_toLower c (hfp c h')]
          exact isDigit_ne c 'x' (hfp c h') (by decide)
  generalize ip ++ (if fp = [] then [] else '.' :: fp) = l at hall
  match l, hall with
  | [], _ => rfl
  | [_], _ => rfl
  | [_, _], _ => rfl
  | c0 :: c1 :: c2 :: rest, hall =>
    have := hall c1 (by simp)
    simp [hexPrefix, this]

theorem parseNumber_decimal (neg : Bool) (whole ip fp : List Char) (hne : ip ≠ [])
    (hip : ∀ c ∈ ip, isDigit c = true) (hfp : ∀ c ∈ fp, isDigit c = true) :
    (parseNumber neg whole (ip ++ (if fp = [] then [] else '.' :: fp))).1 =
      decimalToFloat neg (digitsValue (ip ++ fp) 0) (-(fp.length : Int)) := by
  unfold parseNumber
  simp only [hexPrefix_decimal ip fp hip hfp, Bool.false_eq_true, if_false]
  rw [readMantissa_decimal ip fp hne hip hfp]
  simp only [readExponent, Bool.false_eq_true, if_false, Bool.false_and, zero_sub]
  split
  · next h => exact h.symm
  · rfl

theorem special_digit (c : Char) (cs : List Char) (hc : isDigit c = true) :
    special (c :: cs) = none := by
  have hl := isDigit_toLower c hc
  have h1 : c ≠ 'n' := isDigit_ne c 'n' hc (by decide)
  have h2 : c ≠ 'i' := isDigit_ne c 'i' hc (by decide)
  have h3 : c ≠ '+' := isDigit_ne c '+' hc (by decide)
  have h4 : c ≠ '-' := isDigit_ne c '-' hc (by decide)
  unfold special
  simp [hl, String.ext_iff, h1, h2, h3, h4]

theorem special_minus_digit (c : Char) (cs : List Char) (hc : isDigit c = true) :
    special ('-' :: c :: cs) = none := by
  have hl := isDigit_toLower c hc
  have h2 : c ≠ 'i' := isDigit_ne c 'i' hc (by decide)
  unfold special
  simp [hl, String.ext_iff, h2]

/-- `strconv.ParseFloat` on a decimal text returns the nearest float (an infinity
when the number is too large). -/
theorem ParseFloat_decimalText (neg : Bool) (ip fp : List Char) (hne : ip ≠ [])
    (hip : ∀ c ∈ ip, isDigit c = true) (hfp : ∀ c ∈ fp, isDigit c = true) :
    (ParseFloat (decimalText neg ip fp)).1 =
      decimalToFloat neg (digitsValue (ip ++ fp) 0) (-(fp.length : Int)) := by
  have hp := fun whole => parseNumber_decimal neg whole ip fp hne hip hfp
  obtain ⟨c, cs, rfl⟩ := List.exists_cons_of_ne_nil hne
  have hc := hip c (List.mem_cons_self _ _)
  unfold ParseFloat decimalText
  cases neg
  · have h1 : c ≠ '+' := isDigit_ne c '+' hc (by decide)
    have h2 : c ≠ '-' := isDigit_ne c '-' hc (by decide)
    simp only [Bool.false_eq_true, if_false, List.nil_append, List.cons_append, String.toList,
      special_digit c _ hc, h1, h2]
    exact hp _
  · simp only [if_true, List.cons_append, List.nil_append, String.toList,
      special_minus_digit c _ hc, Char.reduceEq, if_false]
    exact hp _

end

section
open strconv

theorem decimalToFloat_neg_length (neg : Bool) (mant k : Nat) :
    decimalToFloat neg mant (-(k : Int)) =
      F64.round neg (mant * F64.one_units) (10 ^ k) := by
  unfold decimalToFloat
  by_cases hk : k = 0
  · subst hk
    simp
  · have h : ¬ (0 ≤ -(k : Int)) := by omega
    rw [if_neg h]
    simp

theorem DecimalSpec.wellFormed_iff (d : DecimalSpec) (h : d.wellFormed = true) :
    d.intDigits ≠ [] ∧ (∀ c ∈ d.intDigits, isDigit c = true) ∧
      (∀ c ∈ d.fracDigits, isDigit c = true) := by
  unfold DecimalSpec.wellFormed at h
  simp only [Bool.and_eq_true, Bool.not_eq_true', List.all_eq_true] at h
  obtain ⟨⟨h1, h2⟩, h3⟩ := h
  refine ⟨?_, h2, h3⟩
  intro e
  rw [e] at h1
  cases h1

/-- `strconv.ParseFloat` reads a well-formed decimal string as the nearest float. -/
theorem ParseFloat_text (d : DecimalSpec) (h : d.wellFormed = true) :
    (ParseFloat d.text).1 = d.value := by
  obtain ⟨h1, h2, h3⟩ := d.wellFormed_iff h
  unfold DecimalSpec.text DecimalSpec.value
  rw [ParseFloat_decimalText d.neg d.intDigits d.fracDigits h1 h2 h3, decimalToFloat_neg_length]

/-- `strconv.ParseInt` reads an integer string that fits `int64` as its value. -/
theorem ParseInt_text (d : DecimalSpec) (h : d.isInt64 = true) :
    (ParseInt d.text).1 = d.intValue := by
  unfold DecimalSpec.isInt64 at h
  simp only [Bool.and_eq_true, List.isEmpty_iff] at h
  obtain ⟨⟨hw, hf⟩, hr⟩ := h
  obtain ⟨h1, h2, _⟩ := d.wellFormed_iff hw
  have hmax : if d.neg then digitsValue d.intDigits 0 ≤ 2 ^ 63
      else digitsValue d.intDigits 0 < 2 ^ 63 := by
    cases hn : d.neg <;> simpa [hn] using hr
  unfold DecimalSpec.text DecimalSpec.intValue
  rw [hf, ParseInt_decimalText d.neg d.intDigits h1 h2 hmax]

theorem isInt64_iff (z : Int) (h : isInt64 z = true) : -(2 ^ 63 : Int) ≤ z ∧ z < 2 ^ 63 := by
  unfold isInt64 at h
  simpa using h

/-- The decoded number of a timestamp converts back to the timestamp. -/
theorem toInt64_timestamp (z : Int) (h : isTimestamp z = true) :
    F64.toInt64 (F64.ofInt z) = z := by
  unfold isTimestamp at h
  rw [Bool.and_eq_true, decide_eq_true_eq] at h
  obtain ⟨h1, h2⟩ := h
  obtain ⟨a, b⟩ := isInt64_iff z h1
  rw [h2]
  exact F64.toInt64_exact z a b

/-- A row with the documented types converts to the candle of its fields. -/
theorem convertRow_typed (v : List JSONValue) (c : Candle) (h : typedCandle v = some c) :
    convertRow v = Except.ok c := by
  unfold typedCandle at h
  split at h
  · cases h
    rfl
  · cases h

theorem typedCandle_isSome (v : List JSONValue) (h : wellTyped v = true) :
    ∃ c, typedCandle v = some c := by
  unfold wellTyped at h
  split at h
  · exact ⟨_, rfl⟩
  · cases h

/-- Integers beyond 53 bits that no `float64` holds are not timestamps of a decoded
row: the decoded number of `2^53 + 1` is `2^53`, and that of `2^63 - 1` is `2^63`,
which `int64` does not hold. -/
theorem timestamp_bounds :
    isTimestamp 1700000000000 = true ∧ isTimestamp (2 ^ 53) = true ∧
    isTimestamp (2 ^ 53 + 1) = false ∧ isTimestamp (2 ^ 63 - 1) = false ∧
    F64.toInt64 (F64.ofInt (2 ^ 53 + 1)) = 2 ^ 53 ∧
    F64.ofInt (2 ^ 63 - 1) = F64.ofInt (2 ^ 63) := by
  decide!

/-- A valid kline row converts to its candle when the volume is an integer. -/
theorem convertRow_valid (r : RowSpec) (h : r.validIntVolume = true) :
    convertRow r.raw = Except.ok r.candle := by
  unfold RowSpec.validIntVolume RowSpec.valid at h
  simp only [Bool.and_eq_true] at h
  obtain ⟨⟨⟨⟨⟨⟨⟨t0, t6⟩, o⟩, hi⟩, lo⟩, cl⟩, _⟩, vol⟩ := h
  apply convertRow_typed
  unfold RowSpec.raw typedCandle RowSpec.candle
  simp only [List.cons_append, List.nil_append]
  rw [toInt64_timestamp _ t0, toInt64_timestamp _ t6, ParseFloat_text _ o,
    ParseFloat_text _ hi, ParseFloat_text _ lo, ParseFloat_text _ cl, ParseInt_text _ vol]


/-- The loop on the rows of valid klines. -/
theorem convertFromArray_loop_valid (rows : List RowSpec) (init : List Candle)
    (h : ∀ r ∈ rows, r.validIntVolume = true) :
    (rows.map RowSpec.raw).foldlM
      (fun candleList v => do
        let candle ← convertRow v
        pure (candleList ++ [candle])) init =
      Except.ok (init ++ rows.map RowSpec.candle) := by
  induction rows generalizing init with
  | nil => simp [pure, Except.pure]
  | cons r rs ih =>
    have hr := convertRow_valid r (h r (List.mem_cons_self _ _))
    have hrs : ∀ x ∈ rs, x.validIntVolume = true := fun x hx => h x (List.mem_cons_of_mem _ hx)
    have h2 := ih (init ++ [r.candle]) hrs
    rw [List.map_cons, List.foldlM_cons, hr]
    simp only [bind, Except.bind, pure, Except.pure] at h2 ⊢
    rw [h2]
    simp

/-- C3 (as the code has it): for every sequence of valid raw rows (fields 0 and 6
integer timestamps that the decoded float64 holds exactly and that fit int64, fields
1–4 decimal strings, field 5 the string of an integer that fits int64)
convertFromArray returns exactly one Candle per row, in input order, with OpenTime and
CloseTime equal to the timestamps, Open/High/Low/Close the floats nearest to the
decimal numbers of fields 1–4, and Volume the integer written in field 5. -/
theorem convertFromArray_valid (rows : List RowSpec)
    (h : ∀ r ∈ rows, r.validIntVolume = true) :
    convertFromArray (rows.map RowSpec.raw) = Except.ok (rows.map RowSpec.candle) ∧
    (rows.map RowSpec.candle).length = rows.length := by
  refine ⟨?_, by simp⟩
  have := convertFromArray_loop_valid rows [] h
  simpa [convertFromArray] using this


/-- C3 at one concrete kline. -/
theorem convertFromArray_valid_witness :
    (∀ r ∈ [sampleKline], r.validIntVolume = true) ∧
    convertFromArray ([sampleKline].map RowSpec.raw) =
      Except.ok
        [{ OpenTime := 1700000000000
           Open := F64.ofFrac 1 4
           High := F64.ofFrac 3 2
           Low := F64.ofFrac 1 8
           Close := F64.ofInt 1
           Volume := 42
           CloseTime := 1700086399999 }] := by
  have hv : ∀ r ∈ [sampleKline], r.validIntVolume = true := by
    intro r hr
    rw [List.mem_singleton] at hr
    subst hr
    decide!
  refine ⟨hv, ?_⟩
  rw [(convertFromArray_valid [sampleKline] hv).1]
  decide!

/-- C3 (as stated) fails: a row whose volume is the decimal string "1.5" is valid in
the sense of the claim, yet the Candle gets Volume 0, not the value 1.5 of field 5. -/
theorem convertFromArray_fractional_volume :
    fractionalKline.valid = true ∧
    fractionalKline.Volume.text = "1.5" ∧
    fractionalKline.Volume.value = F64.ofFrac 3 2 ∧
    convertFromArray [fractionalKline.raw] =
      Except.ok
        [{ OpenTime := 1700000000000
           Open := F64.ofFrac 1 4
           High := F64.ofFrac 3 2
           Low := F64.ofFrac 1 8
           Close := F64.ofInt 1
           Volume := 0
           CloseTime := 1700086399999 }] ∧
    F64.ofInt 0 ≠ F64.ofFrac 3 2 := by
  decide!


/-! ### C4: lenient field parsing -/

/-- The three possible outcomes of the reader of numbers. -/
theorem parseNumber_cases (neg : Bool) (whole s : List Char) :
    parseNumber neg whole s = (F64.zero, some NumError.ErrSyntax) ∨
    (∃ a, parseNumber neg whole s = (F64.inf a, some NumError.ErrRange)) ∨
    (parseNumber neg whole s).2 = none := by
  unfold parseNumber
  simp only
  split
  · split
    · split
      · exact Or.inl rfl
      · split
        · exact Or.inr (Or.inl ⟨_, rfl⟩)
        · exact Or.inr (Or.inr rfl)
    · exact Or.inl rfl
  · exact Or.inl rfl

/-- The three possible outcomes of `strconv.ParseFloat`: a syntax error with the
value 0, a range error with an infinity, or no error. -/
theorem ParseFloat_cases (s : String) :
    ParseFloat s = (F64.zero, some NumError.ErrSyntax) ∨
    (∃ a, ParseFloat s = (F64.inf a, some NumError.ErrRange)) ∨
    (ParseFloat s).2 = none := by
  unfold ParseFloat
  cases special s.toList with
  | some f => exact Or.inr (Or.inr rfl)
  | none =>
    simp only
    cases s.toList with
    | nil => exact Or.inl rfl
    | cons c cs =>
      simp only
      split_ifs
      · exact parseNumber_cases false _ cs
      · exact parseNumber_cases true _ cs
      · exact parseNumber_cases false _ (c :: cs)

theorem parseUintLoop_cases (s : List Char) (n : Nat) :
    parseUintLoop s n = (0, some NumError.ErrSyntax) ∨
    parseUintLoop s n = (maxUint64, some NumError.ErrRange) ∨
    (parseUintLoop s n).2 = none := by
  induction s generalizing n with
  | nil => exact Or.inr (Or.inr rfl)
  | cons c cs ih =>
    rw [parseUintLoop]
    by_cases hd : isDigit c = true
    · rw [if_pos hd]
      by_cases h1 : maxUint64 / 10 + 1 ≤ n
      · rw [if_pos h1]
        exact Or.inr (Or.inl rfl)
      · rw [if_neg h1]
        simp only
        by_cases h2 : maxUint64 < n * 10 + digitVal c
        · rw [if_pos h2]
          exact Or.inr (Or.inl rfl)
        · rw [if_neg h2]
          exact ih _
    · rw [if_neg hd]
      exact Or.inl rfl

theorem parseIntSigned_range (neg : Bool) (un : Nat) :
    (if (!neg && decide (2 ^ 63 ≤ un)) = true then
        ((2 ^ 63 - 1 : Int), some NumError.ErrRange)
      else if (neg && decide (2 ^ 63 < un)) = true then
        (-(2 ^ 63 : Int), some NumError.ErrRange)
      else (if neg = true then -(un : Int) else (un : Int), none)) =
        ((2 ^ 63 - 1 : Int), some NumError.ErrRange) ∨
    (if (!neg && decide (2 ^ 63 ≤ un)) = true then
        ((2 ^ 63 - 1 : Int), some NumError.ErrRange)
      else if (neg && decide (2 ^ 63 < un)) = true then
        (-(2 ^ 63 : Int), some NumError.ErrRange)
      else (if neg = true then -(un : Int) else (un : Int), none)) =
        (-(2 ^ 63 : Int), some NumError.ErrRange) ∨
    (if (!neg && decide (2 ^ 63 ≤ un)) = true then
        ((2 ^ 63 - 1 : Int), some NumError.ErrRange)
      else if (neg && decide (2 ^ 63 < un)) = true then
        (-(2 ^ 63 : Int), some NumError.ErrRange)
      else (if neg = true then -(un : Int) else (un : Int), none)).2 = none := by
  by_cases h1 : (!neg && decide (2 ^ 63 ≤ un)) = true
  · rw [if_pos h1]
    exact Or.inl rfl
  · rw [if_neg h1]
    by_cases h2 : (neg && decide (2 ^ 63 < un)) = true
    · rw [if_pos h2]
      exact Or.inr (Or.inl rfl)
    · rw [if_neg h2]
      exact Or.inr (Or.inr rfl)

theorem parseIntSigned_cases (neg : Bool) (s : List Char) :
    parseIntSigned neg s = (0, some NumError.ErrSyntax) ∨
    parseIntSigned neg s = ((2 ^ 63 - 1 : Int), some NumError.ErrRange) ∨
    parseIntSigned neg s = (-(2 ^ 63 : Int), some NumError.ErrRange) ∨
    (parseIntSigned neg s).2 = none := by
  unfold parseIntSigned
  split
  · exact Or.inl rfl
  · exact Or.inr (parseIntSigned_range neg _)

/-- The possible outcomes of `strconv.ParseInt`: a syntax error with the value 0, a
range error with the nearest bound of `int64`, or no error. -/
theorem ParseInt_cases (s : String) :
    ParseInt s = (0, some NumError.ErrSyntax) ∨
    ParseInt s = ((2 ^ 63 - 1 : Int), some NumError.ErrRange) ∨
    ParseInt s = (-(2 ^ 63 : Int), some NumError.ErrRange) ∨
    (ParseInt s).2 = none := by
  unfold ParseInt
  cases s.toList with
  | nil => exact Or.inl rfl
  | cons c cs =>
    simp only
    split_ifs
    · exact parseIntSigned_cases false cs
    · exact parseIntSigned_cases true cs
    · exact parseIntSigned_cases false (c :: cs)

theorem ParseFloat_syntax (s : String) (h : (ParseFloat s).2 = some NumError.ErrSyntax) :
    (ParseFloat s).1 = F64.zero := by
  rcases ParseFloat_cases s with h1 | ⟨a, h1⟩ | h1
  · rw [h1]
  · rw [h1] at h
    cases h
  · rw [h1] at h
    cases h

theorem ParseInt_syntax (s : String) (h : (ParseInt s).2 = some NumError.ErrSyntax) :
    (ParseInt s).1 = 0 := by
  rcases ParseInt_cases s with h1 | h1 | h1 | h1
  · rw [h1]
  · rw [h1] at h
    cases h
  · rw [h1] at h
    cases h
  · rw [h1] at h
    cases h


/-- A row with seven fields of which one has the wrong JSON type makes the type
assertion of that field panic. -/
theorem convertRow_illTyped (v : List JSONValue) (hlen : 7 ≤ v.length)
    (h : wellTyped v = false) :
    ∃ dyn wanted, convertRow v = Except.error (Panic.interfaceConversion dyn wanted) := by
  match v, hlen, h with
  | x0 :: x1 :: x2 :: x3 :: x4 :: x5 :: x6 :: rest, _, h =>
    cases x0 <;> first | exact ⟨_, _, rfl⟩ | skip
    cases x1 <;> first | exact ⟨_, _, rfl⟩ | skip
    cases x2 <;> first | exact ⟨_, _, rfl⟩ | skip
    cases x3 <;> first | exact ⟨_, _, rfl⟩ | skip
    cases x4 <;> first | exact ⟨_, _, rfl⟩ | skip
    cases x5 <;> first | exact ⟨_, _, rfl⟩ | skip
    cases x6 <;> first | exact ⟨_, _, rfl⟩ | skip
    simp [wellTyped] at h

/-- The first fields of a row with the documented types, when there are fewer than
seven of them, make the index expression of the first missing field panic. -/
theorem convertRow_short (w : List JSONValue) (k : Nat) (hw : wellTyped w = true)
    (hk : k < 7) :
    convertRow (w.take k) = Except.error (Panic.indexOutOfRange k k) := by
  unfold wellTyped at hw
  split at hw
  · interval_cases k <;> rfl
  · cases hw


/-- The loop on rows with the documented types yields one candle per row. -/
theorem convertFromArray_loop_forall (rows : List (List JSONValue)) (init : List Candle)
    (h : ∀ v ∈ rows, wellTyped v = true) :
    ∃ candles, rows.foldlM
      (fun candleList v => do
        let candle ← convertRow v
        pure (candleList ++ [candle])) init = Except.ok (init ++ candles) ∧
      List.Forall₂ (fun v c => convertRow v = Except.ok c) rows candles := by
  induction rows generalizing init with
  | nil => exact ⟨[], by simp [pure, Except.pure], List.Forall₂.nil⟩
  | cons v vs ih =>
    obtain ⟨c, hc⟩ := typedCandle_isSome v (h v (List.mem_cons_self _ _))
    have hvs : ∀ w ∈ vs, wellTyped w = true := fun w hw => h w (List.mem_cons_of_mem _ hw)
    obtain ⟨cs, h2, h3⟩ := ih (init ++ [c]) hvs
    refine ⟨c :: cs, ?_, List.Forall₂.cons (convertRow_typed v c hc) h3⟩
    rw [List.foldlM_cons, convertRow_typed v c hc]
    simp only [bind, Except.bind, pure, Except.pure] at h2 ⊢
    rw [h2]
    simp

/-- C4 (as the code has it): in convertFromArray a syntax error in the string of one of
fields 1–5 does not abort the row or the run when the first seven fields of every row
have the documented JSON types: every row yields one Candle whose fields are read one
by one, and a field whose string is not a number is 0; a row of at least seven fields
with a field of the wrong JSON type makes convertFromArray panic. -/
theorem convertFromArray_lenient (rows : List (List JSONValue)) :
    ((∀ v ∈ rows, wellTyped v = true) →
      ∃ candles, convertFromArray rows = Except.ok candles ∧
        List.Forall₂ (fun v c => convertRow v = Except.ok c) rows candles) ∧
    (∀ (t0 t6 : F64) (s1 s2 s3 s4 s5 : String) (rest : List JSONValue),
      convertRow
          (JSONValue.number t0 :: JSONValue.string s1 :: JSONValue.string s2 ::
            JSONValue.string s3 :: JSONValue.string s4 :: JSONValue.string s5 ::
            JSONValue.number t6 :: rest) =
        Except.ok
          { OpenTime := F64.toInt64 t0
            Open := (strconv.ParseFloat s1).1
            High := (strconv.ParseFloat s2).1
            Low := (strconv.ParseFloat s3).1
            Close := (strconv.ParseFloat s4).1
            Volume := (strconv.ParseInt s5).1
            CloseTime := F64.toInt64 t6 }) ∧
    (∀ s, (strconv.ParseFloat s).2 = some NumError.ErrSyntax →
      (strconv.ParseFloat s).1 = F64.zero) ∧
    (∀ s, (strconv.ParseInt s).2 = some NumError.ErrSyntax → (strconv.ParseInt s).1 = 0) ∧
    ((∃ v ∈ rows, 7 ≤ v.length ∧ wellTyped v = false) →
      ∃ p, convertFromArray rows = Except.error p) := by
  refine ⟨fun h => ?_, fun _ _ _ _ _ _ _ _ => rfl, ParseFloat_syntax, ParseInt_syntax,
    fun h => ?_⟩
  · obtain ⟨candles, h1, h2⟩ := convertFromArray_loop_forall rows [] h
    exact ⟨candles, by simpa [convertFromArray] using h1, h2⟩
  · obtain ⟨v, hv, hlen, hty⟩ := h
    obtain ⟨d, w, hp⟩ := convertRow_illTyped v hlen hty
    exact convertFromArray_loop_fails rows [] ⟨v, hv, _, hp⟩


/-! ### C5: the field layout -/

/-- The loop stops with the panic of a failing row that follows rows with the
documented types. -/
theorem convertFromArray_loop_stops (pre post : List (List JSONValue)) (v : List JSONValue)
    (p : Panic) (init : List Candle)
    (hpre : ∀ w ∈ pre, wellTyped w = true)
    (hv : convertRow v = Except.error p) :
    (pre ++ v :: post).foldlM
      (fun candleList v => do
        let candle ← convertRow v
        pure (candleList ++ [candle])) init = Except.error p := by
  induction pre generalizing init with
  | nil =>
    rw [List.nil_append, List.foldlM_cons, hv]
    rfl
  | cons w ws ih =>
    obtain ⟨c, hc⟩ := typedCandle_isSome w (hpre w (List.mem_cons_self _ _))
    have hws : ∀ x ∈ ws, wellTyped x = true :=
      fun x hx => hpre x (List.mem_cons_of_mem _ hx)
    rw [List.cons_append, List.foldlM_cons, convertRow_typed w c hc]
    have h2 := ih (init ++ [c]) hws
    simp only [bind, Except.bind, pure, Except.pure] at h2 ⊢
    exact h2

theorem index_take (v : List JSONValue) (i : Nat) (hi : i < 7) :
    index (v.take 7) i = index v i := by
  unfold index
  rw [List.get?_eq_getElem?, List.getElem?_take_of_lt hi, ← List.get?_eq_getElem?]
  cases hg : v.get? i with
  | some x => rfl
  | none =>
    have hlen : v.length ≤ 7 := by
      have := List.get?_eq_none.mp hg
      omega
    rw [List.take_of_length_le hlen]

/-- Fields beyond index 6 play no part in the conversion of a row. -/
theorem convertRow_take (v : List JSONValue) : convertRow (v.take 7) = convertRow v := by
  unfold convertRow
  rw [index_take v 0 (by norm_num), index_take v 1 (by norm_num),
    index_take v 2 (by norm_num), index_take v 3 (by norm_num),
    index_take v 4 (by norm_num), index_take v 5 (by norm_num),
    index_take v 6 (by norm_num)]

theorem convertFromArray_loop_take (rows : List (List JSONValue)) (init : List Candle) :
    (rows.map (List.take 7)).foldlM
      (fun candleList v => do
        let candle ← convertRow v
        pure (candleList ++ [candle])) init =
    rows.foldlM
      (fun candleList v => do
        let candle ← convertRow v
        pure (candleList ++ [candle])) init := by
  induction rows generalizing init with
  | nil => rfl
  | cons v vs ih =>
    rw [List.map_cons, List.foldlM_cons, List.foldlM_cons, convertRow_take]
    cases convertRow v with
    | error p => rfl
    | ok c =>
      have h2 := ih (init ++ [c])
      simp only [bind, Except.bind, pure, Except.pure] at h2 ⊢
      exact h2

/-- C5 (as the code has it): convertFromArray fails fatally whenever the input contains
a row with fewer than 7 fields; the panic is "index out of range" when the rows before
the short row have the documented types and the short row consists of the first fields
of such a row.  For input whose rows all have at least 7 well-typed fields it never
fails and yields one Candle per row.  Fields beyond index 6 do not affect the result. -/
theorem convertFromArray_layout (rows : List (List JSONValue)) :
    ((∃ v ∈ rows, v.length < 7) → ∃ p, convertFromArray rows = Except.error p) ∧
    (∀ (pre post : List (List JSONValue)) (w : List JSONValue) (k : Nat),
      rows = pre ++ w.take k :: post → (∀ v ∈ pre, wellTyped v = true) →
      wellTyped w = true → k < 7 →
      convertFromArray rows = Except.error (Panic.indexOutOfRange k k)) ∧
    ((∀ v ∈ rows, wellTyped v = true) →
      ∃ candles, convertFromArray rows = Except.ok candles ∧
        candles.length = rows.length) ∧
    convertFromArray (rows.map (List.take 7)) = convertFromArray rows := by
  refine ⟨fun h => ?_, fun pre post w k hrows hpre hw hk => ?_, fun h => ?_, ?_⟩
  · obtain ⟨v, hv, hlen⟩ := h
    apply convertFromArray_loop_fails rows []
    refine ⟨v, hv, ?_⟩
    cases hc : convertRow v with
    | error p => exact ⟨p, rfl⟩
    | ok c =>
      have := convertRow_ok_length v c hc
      omega
  · rw [hrows]
    exact convertFromArray_loop_stops pre post _ _ [] hpre (convertRow_short w k hw hk)
  · obtain ⟨candles, h1, h2⟩ := convertFromArray_loop_forall rows [] h
    exact ⟨candles, by simpa [convertFromArray] using h1, h2.length_eq.symm⟩
  · exact convertFromArray_loop_take rows []

/-- C4 at a row whose strings are partly not numbers, and at a row with a string
where a number belongs. -/
theorem convertFromArray_lenient_witness :
    (∀ v ∈ [lenientRow], wellTyped v = true) ∧
    (∃ candles, convertFromArray [lenientRow] = Except.ok candles ∧
      List.Forall₂ (fun v c => convertRow v = Except.ok c) [lenientRow] candles) ∧
    convertFromArray [lenientRow] =
      Except.ok
        [{ OpenTime := 1700000000000
           Open := F64.zero
           High := F64.ofFrac 3 2
           Low := F64.zero
           Close := F64.zero
           Volume := 0
           CloseTime := 1700086399999 }] ∧
    (strconv.ParseFloat "abc").2 = some NumError.ErrSyntax ∧
    (strconv.ParseInt "12.5").2 = some NumError.ErrSyntax ∧
    (∃ v ∈ [illTypedRow], 7 ≤ v.length ∧ wellTyped v = false) ∧
    (∃ p, convertFromArray [illTypedRow] = Except.error p) := by
  have hA : ∀ v ∈ [lenientRow], wellTyped v = true := by decide!
  have hB : ∃ v ∈ [illTypedRow], 7 ≤ v.length ∧ wellTyped v = false :=
    ⟨illTypedRow, List.mem_singleton.mpr rfl, by decide!, by decide!⟩
  exact ⟨hA, (convertFromArray_lenient [lenientRow]).1 hA, by decide!, by decide!, by decide!,
    hB, (convertFromArray_lenient [illTypedRow]).2.2.2.2 hB⟩

/-- C4 (as stated) fails: a row with seven fields whose field 0 is a string, not a
number, does not yield a Candle with OpenTime 0; convertFromArray panics. -/
theorem convertFromArray_wrong_type_panics :
    illTypedRow.length = 7 ∧
    convertFromArray [illTypedRow] =
      Except.error (Panic.interfaceConversion "string" "float64") := by
  decide!

/-- C5 at a row of three fields, at a short row after a full one, and at a full row. -/
theorem convertFromArray_layout_witness :
    (∃ v ∈ [sampleKline.raw.take 3], v.length < 7) ∧
    (∃ p, convertFromArray [sampleKline.raw.take 3] = Except.error p) ∧
    convertFromArray [sampleKline.raw, sampleKline.raw.take 3, sampleKline.raw] =
      Except.error (Panic.indexOutOfRange 3 3) ∧
    (∀ v ∈ [sampleKline.raw], wellTyped v = true) ∧
    (∃ candles, convertFromArray [sampleKline.raw] = Except.ok candles ∧
      candles.length = [sampleKline.raw].length) := by
  have hA : ∃ v ∈ [sampleKline.raw.take 3], v.length < 7 :=
    ⟨sampleKline.raw.take 3, List.mem_singleton.mpr rfl, by decide!⟩
  have hB : ∀ v ∈ [sampleKline.raw], wellTyped v = true := by decide!
  exact ⟨hA, (convertFromArray_layout [sampleKline.raw.take 3]).1 hA,
    (convertFromArray_layout
        [sampleKline.raw, sampleKline.raw.take 3, sampleKline.raw]).2.1
      [sampleKline.raw] [sampleKline.raw] sampleKline.raw 3 rfl hB (by decide!) (by decide),
    hB, (convertFromArray_layout [sampleKline.raw]).2.2.1 hB⟩

/-- C5 (as stated) fails: a row with a single field that is a string makes
convertFromArray panic with a failed type assertion, not with "index out of range". -/
theorem convertFromArray_short_row_type_panic :
    [JSONValue.string "x"].length < 7 ∧
    convertFromArray [[JSONValue.string "x"]] =
      Except.error (Panic.interfaceConversion "string" "float64") ∧
    ∀ i n, convertFromArray [[JSONValue.string "x"]] ≠
      Except.error (Panic.indexOutOfRange i n) := by
  refine ⟨by decide, by decide!, fun i n h => ?_⟩
  have h2 : convertFromArray [[JSONValue.string "x"]] =
      Except.error (Panic.interfaceConversion "string" "float64") := by decide!
  rw [h2] at h
  cases h

end

/-! ## C8: the console table -/

theorem F64.twoDigits_eq :
    ∀ n, n < 100 →
      F64.twoDigits n = String.mk [Char.ofNat (48 + n / 10), Char.ofNat (48 + n % 10)] := by
  decide!

/-- `%.2f` of a finite float: sign, integer part, point and two digits; the number
shown is within 0.005 of the value. -/
theorem F64.format2f_fin (a : Bool) (m : Nat) :
    F64.format2f (F64.fin a m) =
      (if a then "-" else "") ++ Nat.repr (F64.scaledDigits 2 m / 100) ++ "." ++
        String.mk [Char.ofNat (48 + F64.scaledDigits 2 m % 100 / 10),
          Char.ofNat (48 + F64.scaledDigits 2 m % 10)] ∧
    2 * (m * 100 - F64.scaledDigits 2 m * F64.one_units) ≤ F64.one_units ∧
    2 * (F64.scaledDigits 2 m * F64.one_units - m * 100) ≤ F64.one_units := by
  have hpos : 0 < F64.one_units := by
    unfold F64.one_units
    positivity
  refine ⟨?_, ?_⟩
  · unfold F64.format2f
    simp only
    rw [F64.twoDigits_eq _ (Nat.mod_lt _ (by norm_num))]
    have : F64.scaledDigits 2 m % 100 % 10 = F64.scaledDigits 2 m % 10 :=
      Nat.mod_mod_of_dvd _ (by norm_num)
    rw [this]
  · have := F64.rne_error (m * 10 ^ 2) F64.one_units hpos
    simpa [F64.scaledDigits] using this

/-- The rows of the table, in the order in which the entries are visited. -/
theorem buildTable_rows (visited : List (String × Stats)) :
    (buildTable visited).Rows = visited.map (fun kv => tableRow kv.2) := by
  unfold buildTable
  simp only [foldl_append_singleton, List.nil_append]


section
open strconv

theorem isDigit_digitChar : ∀ k, k < 10 → isDigit (Nat.digitChar k) = true := by
  decide

theorem isDigit_ofNat : ∀ k, k < 10 → isDigit (Char.ofNat (48 + k)) = true := by
  decide

theorem toDigitsCore_digits (fuel : Nat) : ∀ (n : Nat) (acc : List Char),
    (∀ c ∈ acc, isDigit c = true) →
    ∀ c ∈ Nat.toDigitsCore 10 fuel n acc, isDigit c = true := by
  induction fuel with
  | zero =>
    intro n acc h
    simpa [Nat.toDigitsCore] using h
  | succ fuel ih =>
    intro n acc h
    have hd : isDigit (Nat.digitChar (n % 10)) = true :=
      isDigit_digitChar _ (Nat.mod_lt _ (by norm_num))
    have hacc : ∀ c ∈ Nat.digitChar (n % 10) :: acc, isDigit c = true := by
      intro c hc
      rcases List.mem_cons.mp hc with rfl | hc'
      · exact hd
      · exact h c hc'
    rw [Nat.toDigitsCore]
    split_ifs
    · exact hacc
    · exact ih _ _ hacc

theorem toDigitsCore_ne_nil (fuel n : Nat) (acc : List Char) :
    Nat.toDigitsCore 10 (fuel + 1) n acc ≠ [] := by
  induction fuel generalizing n acc with
  | zero =>
    rw [Nat.toDigitsCore]
    split_ifs <;> simp [Nat.toDigitsCore]
  | succ fuel ih =>
    rw [Nat.toDigitsCore]
    split_ifs
    · simp
    · exact ih _ _

/-- The decimal digits of a number: at least one, and nothing but digits. -/
theorem repr_digits (n : Nat) :
    (Nat.repr n).toList ≠ [] ∧ ∀ c ∈ (Nat.repr n).toList, isDigit c = true := by
  unfold Nat.repr Nat.toDigits
  simp only [List.asString, String.toList]
  exact ⟨toDigitsCore_ne_nil _ _ _, toDigitsCore_digits _ _ _ (by simp)⟩

theorem isFixed2_of_parts (a : Bool) (ds : List Char) (c1 c2 : Char) (hne : ds ≠ [])
    (hds : ∀ c ∈ ds, isDigit c = true) (h1 : isDigit c1 = true) (h2 : isDigit c2 = true) :
    isFixed2 (String.mk ((if a then ['-'] else []) ++ ds ++ ['.', c1, c2])) = true := by
  have hstrip : stripMinus ((if a then ['-'] else []) ++ ds ++ ['.', c1, c2]) =
      ds ++ ['.', c1, c2] := by
    cases a
    · obtain ⟨d, ds', rfl⟩ := List.exists_cons_of_ne_nil hne
      have hd : d ≠ '-' := isDigit_ne d '-' (hds d (List.mem_cons_self _ _)) (by decide)
      simp only [Bool.false_eq_true, if_false, List.nil_append, List.cons_append]
      unfold stripMinus
      split
      · next heq =>
        simp only [List.cons.injEq] at heq
        exact absurd heq.1 hd
      · rfl
    · rfl
  unfold isFixed2
  simp only [String.toList]
  rw [hstrip]
  have hrev : (ds ++ ['.', c1, c2]).reverse = c2 :: c1 :: '.' :: ds.reverse := by simp
  rw [hrev]
  simp only [fixed2Reversed, h1, h2, Bool.true_and, decide_True, Bool.and_eq_true,
    Bool.not_eq_true', List.isEmpty_eq_false, ne_eq, List.reverse_eq_nil_iff, List.all_eq_true,
    List.mem_reverse]
  exact ⟨hne, hds⟩

/-- `%.2f` of a finite float is in fixed notation with two decimal places. -/
theorem isFixed2_format2f (a : Bool) (m : Nat) :
    isFixed2 (F64.format2f (F64.fin a m)) = true := by
  obtain ⟨hne, hds⟩ := repr_digits (F64.scaledDigits 2 m / 100)
  have h := isFixed2_of_parts a (Nat.repr (F64.scaledDigits 2 m / 100)).toList
    (Char.ofNat (48 + F64.scaledDigits 2 m % 100 / 10))
    (Char.ofNat (48 + F64.scaledDigits 2 m % 10)) hne hds
    (isDigit_ofNat _ (by omega)) (isDigit_ofNat _ (by omega))
  rw [(F64.format2f_fin a m).1]
  have e : (if a then "-" else "") ++ Nat.repr (F64.scaledDigits 2 m / 100) ++ "." ++
      String.mk [Char.ofNat (48 + F64.scaledDigits 2 m % 100 / 10),
        Char.ofNat (48 + F64.scaledDigits 2 m % 10)] =
      String.mk ((if a then ['-'] else []) ++ (Nat.repr (F64.scaledDigits 2 m / 100)).toList ++
        ['.', Char.ofNat (48 + F64.scaledDigits 2 m % 100 / 10),
          Char.ofNat (48 + F64.scaledDigits 2 m % 10)]) := by
    apply String.ext
    cases a <;> simp [String.data_append]
  rw [e]
  exact h

end

/-- C8 (as the code has it): buildTable returns the headers [KPI Name, Standard
Deviation, Mean, Value At Risk] and exactly one row per entry of the stats mapping,
whatever the order in which the entries are visited; each row is [Name, Std × 100,
Mean × 100, ValueAtRisk × 100] with the numbers rendered by "%.2f": every finite value
in fixed notation with two decimal places (within 0.005 of the value), and NaN, +Inf
and -Inf as "NaN", "+Inf" and "-Inf"; an entry with Std = 0.05, Mean = 0.03,
ValueAtRisk = 0.144 renders as "5.00", "3.00", "14.40". -/
theorem buildTable_spec (statsMap visited : List (String × Stats))
    (h : visited.Perm statsMap) :
    (buildTable visited).Headers =
      ["KPI Name", "Standard Deviation", "Mean", "Value At Risk"] ∧
    (buildTable visited).Rows.length = statsMap.length ∧
    (buildTable visited).Rows =
      visited.map (fun kv =>
        [kv.2.Name,
         F64.format2f (F64.mul kv.2.Std (F64.ofInt 100)),
         F64.format2f (F64.mul kv.2.Mean (F64.ofInt 100)),
         F64.format2f (F64.mul kv.2.ValueAtRisk (F64.ofInt 100))]) ∧
    ((buildTable visited).Rows).Perm
      (statsMap.map (fun kv =>
        [kv.2.Name,
         F64.format2f (F64.mul kv.2.Std (F64.ofInt 100)),
         F64.format2f (F64.mul kv.2.Mean (F64.ofInt 100)),
         F64.format2f (F64.mul kv.2.ValueAtRisk (F64.ofInt 100))])) ∧
    (∀ (a : Bool) (m : Nat),
      isFixed2 (F64.format2f (F64.fin a m)) = true ∧
      F64.format2f (F64.fin a m) =
        (if a then "-" else "") ++ Nat.repr (F64.scaledDigits 2 m / 100) ++ "." ++
          String.mk [Char.ofNat (48 + F64.scaledDigits 2 m % 100 / 10),
            Char.ofNat (48 + F64.scaledDigits 2 m % 10)] ∧
      2 * (m * 100 - F64.scaledDigits 2 m * F64.one_units) ≤ F64.one_units ∧
      2 * (F64.scaledDigits 2 m * F64.one_units - m * 100) ≤ F64.one_units) ∧
    (F64.format2f F64.nan = "NaN" ∧ F64.format2f (F64.inf false) = "+Inf" ∧
      F64.format2f (F64.inf true) = "-Inf") ∧
    (∀ key name : String,
      (buildTable
        [(key, { Name := name, Std := F64.ofFrac 5 100, Mean := F64.ofFrac 3 100,
                 ValueAtRisk := F64.ofFrac 144 1000 })]).Rows =
        [[name, "5.00", "3.00", "14.40"]]) := by
  have hrows := buildTable_rows visited
  refine ⟨rfl, ?_, ?_, ?_, fun a m => ⟨isFixed2_format2f a m, F64.format2f_fin a m⟩,
    ⟨rfl, rfl, rfl⟩, fun key name => ?_⟩
  · rw [hrows, List.length_map, h.length_eq]
  · rw [hrows]
    rfl
  · rw [hrows]
    exact h.map _
  · rw [buildTable_rows]
    have e1 : F64.format2f (F64.mul (F64.ofFrac 5 100) (F64.ofInt 100)) = "5.00" := by decide!
    have e2 : F64.format2f (F64.mul (F64.ofFrac 3 100) (F64.ofInt 100)) = "3.00" := by decide!
    have e3 : F64.format2f (F64.mul (F64.ofFrac 144 1000) (F64.ofInt 100)) = "14.40" := by
      decide!
    simp only [List.map_cons, List.map_nil, tableRow, e1, e2, e3]

/-- C8 at a mapping with two entries that are visited in the other order. -/
theorem buildTable_spec_witness :
    ([("b", ⟨"B", F64.ofFrac 1 8, F64.zero, F64.nan⟩),
      ("a", ⟨"A", F64.ofFrac 5 100, F64.ofFrac 3 100, F64.ofFrac 144 1000⟩)]
        : List (String × Stats)).Perm
      [("a", ⟨"A", F64.ofFrac 5 100, F64.ofFrac 3 100, F64.ofFrac 144 1000⟩),
       ("b", ⟨"B", F64.ofFrac 1 8, F64.zero, F64.nan⟩)] ∧
    (buildTable
      [("b", ⟨"B", F64.ofFrac 1 8, F64.zero, F64.nan⟩),
       ("a", ⟨"A", F64.ofFrac 5 100, F64.ofFrac 3 100, F64.ofFrac 144 1000⟩)]).Rows.length =
      2 ∧
    (buildTable
      [("b", ⟨"B", F64.ofFrac 1 8, F64.zero, F64.nan⟩),
       ("a", ⟨"A", F64.ofFrac 5 100, F64.ofFrac 3 100, F64.ofFrac 144 1000⟩)]).Rows =
      [["B", "12.50", "0.00", "NaN"], ["A", "5.00", "3.00", "14.40"]] := by
  have hperm : ([("b", ⟨"B", F64.ofFrac 1 8, F64.zero, F64.nan⟩),
      ("a", ⟨"A", F64.ofFrac 5 100, F64.ofFrac 3 100, F64.ofFrac 144 1000⟩)]
        : List (String × Stats)).Perm
      [("a", ⟨"A", F64.ofFrac 5 100, F64.ofFrac 3 100, F64.ofFrac 144 1000⟩),
       ("b", ⟨"B", F64.ofFrac 1 8, F64.zero, F64.nan⟩)] := List.Perm.swap _ _ _
  refine ⟨hperm, (buildTable_spec _ _ hperm).2.1, ?_⟩
  decide!

/-- C8 (as stated) fails: for one candle whose open price is zero the statistics are
not finite, and the cells of the table read "NaN", "+Inf", "NaN", none of which is in
fixed notation with two decimal places. -/
theorem buildTable_nonfinite_cells :
    (buildTable (calculateReport (calculateCandleStats [zeroOpenCandle])).stats).Rows =
      [["Return Percentage", "NaN", "+Inf", "NaN"]] ∧
    isFixed2 "NaN" = false ∧ isFixed2 "+Inf" = false := by
  decide!

/-! ## C10: a body that cannot be decoded -/

/-- The outcome of `json.Unmarshal` plays no part in the run. -/
theorem main_ignores_unmarshal_error (env : Env) :
    main { env with unmarshalFails := true } = main { env with unmarshalFails := false } := by
  rfl

/-- C10 (the code at the failing input): when the body is not JSON, so that decoding
fails and no rows are decoded, the run still computes the statistics of zero candles,
writes report.yaml, prints the table and ends normally. -/
theorem main_decode_error_writes_report :
    decodeErrorEnv.unmarshalFails = true ∧
    main decodeErrorEnv =
      ([Event.printBody "Service Unavailable",
        Event.printCandles [],
        Event.printStats (calculateReport (calculateCandleStats [])).stats,
        Event.printYaml (calculateReport (calculateCandleStats [])).stats,
        Event.writeFile "report.yaml" (calculateReport (calculateCandleStats [])).stats,
        Event.writeTable (buildTable (calculateReport (calculateCandleStats [])).stats)],
       Exit.normal) := by
  decide!

end CryptoStats
